import Mathlib

/-!
Verification development for the Randstad job-scraper repository.

The embedding models the extraction / normalization / crawl-control pipeline of
`src/main.js` and of the near-duplicate variant source file (called `variant B`
below, the file whose DETAIL branch carries the `preview_fallback` provenance
tag and the required-field check).  JavaScript values are modelled by `JsVal`
(null/undefined collapse to `JsVal.null`), JS objects by association lists, and
the crawler's shared mutable state by an explicit `CrawlState` with a step
relation.  External layers (HTTP fetch, cheerio/JSDOM query engines, JSON.parse)
are abstracted to their results: a fetched page is given by its parsed route
payload, its parsed JSON-LD blocks and the raw text returned by the fixed DOM
queries the code performs; everything downstream of those query results is
translated from the source.
-/

namespace Randstad

/-- Model of a JavaScript value as it appears in the scraped JSON payloads and
in the records the scraper builds.  `null` stands for both `null` and
`undefined`; numbers are modelled as integers (the payload values the code
reads are integral).  Arrays and objects are built from spine constructors
(`arrNil`/`arrCons`, `objNil`/`objCons`) rather than an embedded `List`, so
that every function on values is a plain structural recursion. -/
inductive JsVal where
  | null : JsVal
  | str : String → JsVal
  | num : Int → JsVal
  | arrNil : JsVal
  | arrCons : JsVal → JsVal → JsVal
  | objNil : JsVal
  | objCons : String → JsVal → JsVal → JsVal
deriving DecidableEq

/-- Array literal. -/
def jarr (l : List JsVal) : JsVal := l.foldr .arrCons .arrNil

/-- Object literal. -/
def jobj (l : List (String × JsVal)) : JsVal :=
  l.foldr (fun p acc => .objCons p.1 p.2 acc) .objNil

def isArr : JsVal → Bool
  | .arrNil => true
  | .arrCons _ _ => true
  | _ => false

def isObj : JsVal → Bool
  | .objNil => true
  | .objCons _ _ _ => true
  | _ => false

/-- `typeof v === 'object'` for non-null values (arrays included). -/
def isObjLike (v : JsVal) : Bool := isArr v || isObj v

def jsArrToList : JsVal → List JsVal
  | .arrCons h t => h :: jsArrToList t
  | _ => []

def jsObjToList : JsVal → List (String × JsVal)
  | .objCons k v r => (k, v) :: jsObjToList r
  | _ => []

/-- `v?.[0]` for the array values the code indexes. -/
def arrFirst : JsVal → JsVal
  | .arrCons h _ => h
  | _ => .null

/-- JS falsiness restricted to the modelled values: `null`/`undefined`, the
empty string and `0` are falsy, every array or object is truthy. -/
def jsFalsy : JsVal → Bool
  | .null => true
  | .str s => s = ""
  | .num n => n = 0
  | _ => false

def jsTruthy (v : JsVal) : Bool := !(jsFalsy v)

/-- `a || b`. -/
def jsOr (a b : JsVal) : JsVal := if jsTruthy a then a else b

/-- `a || null`: normalizes any falsy value to null. -/
def jsOrNull (a : JsVal) : JsVal := jsOr a .null

/-- `value ?? fallback ?? null` (src/main.js `softNormalize`): nullish
coalescing, which unlike `||` keeps empty strings and `0`. -/
def softNormalize (value fallback : JsVal) : JsVal :=
  match value with
  | .null => fallback
  | v => v

/-- Property access `v?.k` (and plain `v.k` on a value known non-null):
member lookup on an object, `undefined` (= `.null`) on a missing key or on a
non-object. -/
def jsGet : JsVal → String → JsVal
  | .objCons k' v rest, k => if k' = k then v else jsGet rest k
  | _, _ => .null

/-- Plain member access `v.k`, which throws a TypeError when `v` is
`null`/`undefined`.  The error case matters: `extractSalary` accesses
`source.Salary` without optional chaining and its `= {}` default parameter
only applies to `undefined` arguments, not to the `|| null` value it is
actually given in the DETAIL branch. -/
def jsGetE (v : JsVal) (k : String) : Except Unit JsVal :=
  match v with
  | .null => .error ()
  | v => .ok (jsGet v k)

/-- `===` on the scalar values that reach it in the code; composite values
compare by reference in JS, which two distinct literals never share, so they
are modelled as never equal. -/
def jsEqb : JsVal → JsVal → Bool
  | .null, .null => true
  | .str a, .str b => a = b
  | .num a, .num b => a = b
  | _, _ => false

/-- `String(v)` for the modelled values: array stringification joins the
elements with commas (one level of flattening per JS `Array.prototype.join`,
which stringifies nested arrays recursively), rendering null elements as
empty; objects render as `[object Object]`. -/
def jsToString : JsVal → String
  | .null => "null"
  | .str s => s
  | .num n => toString n
  | .objNil => "[object Object]"
  | .objCons _ _ _ => "[object Object]"
  | .arrNil => ""
  | .arrCons h t =>
      (match h with
        | .null => ""
        | h => jsToString h) ++
      (match t with
        | .arrNil => ""
        | t => "," ++ jsToString t)

def jsToStringElem : JsVal → String
  | .null => ""
  | v => jsToString v

/-! Core `String` operations backed by byte positions (`startsWith`, `trim`,
`toNat?`, ...) are replaced throughout by character-list equivalents so that
everything evaluates by reduction. -/

def isWsChar (c : Char) : Bool := c.isWhitespace

def startsWithS (s pre : String) : Bool := pre.data.isPrefixOf s.data

def endsWithS (s suf : String) : Bool := suf.data.reverse.isPrefixOf s.data.reverse

def dropRightS (s : String) (n : Nat) : String := String.mk (s.data.take (s.data.length - n))

def toLowerS (s : String) : String := String.mk (s.data.map Char.toLower)

def trimL (l : List Char) : List Char :=
  ((l.dropWhile isWsChar).reverse.dropWhile isWsChar).reverse

def trimS (s : String) : String := String.mk (trimL s.data)

def parseNatL (l : List Char) : Option Nat :=
  if l.isEmpty then none
  else if l.all (fun c => c.isDigit) then
    some (l.foldl (fun a c => a * 10 + (c.toNat - 48)) 0)
  else none

/-- JS `split` on a single-character separator. -/
def splitOnCharAux (c : Char) : List Char → List Char → List String
  | [], acc => [String.mk acc.reverse]
  | x :: xs, acc =>
      if x = c then String.mk acc.reverse :: splitOnCharAux c xs []
      else splitOnCharAux c xs (x :: acc)

def splitOnChar (c : Char) (s : String) : List String := splitOnCharAux c s.data []

/-- `Number(v)` on the values the salary formatter feeds it, as a partial
parse: `none` models `NaN`.  Only integral decimal strings are modelled. -/
def jsToNumber : JsVal → Option Int
  | .null => some 0
  | .num n => some n
  | .str s =>
      let t := trimL s.data
      if t.isEmpty then some 0
      else match t with
        | '-' :: rest => (parseNatL rest).map (fun n => -(n : Int))
        | _ => (parseNatL t).map (fun n => (n : Int))
  | _ => none

/-! ### Whitespace collapsing (`normalizeWhitespace`)

`String(value).replace(/\s+/g, ' ').trim()` collapses every run of whitespace
to a single space and removes leading/trailing whitespace, which is the same
as joining the maximal whitespace-free runs with single spaces. -/

/-- Splits a character list into its maximal runs of characters satisfying
`keep`; `acc` holds the current run in reverse.  Used both for whitespace
collapsing (runs of non-whitespace) and for the slug character-class
replacement in `composeJobUrl`. -/
def runsAux (keep : Char → Bool) : List Char → List Char → List (List Char)
  | [], acc => if acc.isEmpty then [] else [acc.reverse]
  | c :: cs, acc =>
      if keep c then runsAux keep cs (c :: acc)
      else if acc.isEmpty then runsAux keep cs []
      else acc.reverse :: runsAux keep cs []

def wsTokens (l : List Char) : List (List Char) :=
  runsAux (fun c => !isWsChar c) l []

def joinTokens : List (List Char) → List Char
  | [] => []
  | [t] => t
  | t :: ts => t ++ ' ' :: joinTokens ts

def collapseWsL (l : List Char) : List Char := joinTokens (wsTokens l)

def collapseWs (s : String) : String := String.mk (collapseWsL s.data)

/-- src/main.js `normalizeWhitespace`: falsy input gives null; otherwise the
stringified value is whitespace-collapsed and trimmed, an empty result giving
null (`|| null`). -/
def normalizeWhitespace (v : JsVal) : Option String :=
  if jsFalsy v then none
  else
    let t := collapseWs (jsToString v)
    if t = "" then none else some t

/-- Lifts an optional string back into the value model. -/
def optToJs : Option String → JsVal
  | none => .null
  | some s => .str s

/-! ### Tag stripping and `htmlToText`

`htmlToText` loads the HTML fragment, removes `script`, `style` and
`noscript` elements and takes the text content.  The DOM parse is modelled by
a character scanner: markup between `<` and `>` is dropped, and the entire
content of script/style/noscript elements is dropped up to the matching close
tag.  (Entity decoding and tag-case folding of the real parser are not
modelled; no claim depends on them, and the normalization applied afterwards
is the code's own `normalizeWhitespace`.) -/

def ltChar : Char := '<'
def gtChar : Char := '>'
def slashChar : Char := '/'

/-- Drops everything up to and including the first `>`. -/
def dropThroughGt (l : List Char) : List Char :=
  (l.dropWhile (fun c => c ≠ gtChar)).drop 1

/-- First index at which `needle` occurs in `hay` (JS `indexOf`). -/
def findSub : List Char → List Char → Option Nat
  | hay, needle =>
    match hay with
    | [] => if needle.isEmpty then some 0 else none
    | _ :: tl =>
        if needle.isPrefixOf hay then some 0
        else (findSub tl needle).map (· + 1)

/-- Skips the body of a raw-text element (`script`/`style`/`noscript`) up to
and past its close tag. -/
def skipRawElement (name : List Char) (l : List Char) : List Char :=
  match findSub l (ltChar :: slashChar :: name) with
  | none => []
  | some i => dropThroughGt (l.drop i)

def scriptName : List Char := "script".data
def styleName : List Char := "style".data
def noscriptName : List Char := "noscript".data

def stripTagsAux : Nat → List Char → List Char
  | 0, _ => []
  | _ + 1, [] => []
  | fuel + 1, c :: cs =>
      if c = ltChar then
        if scriptName.isPrefixOf cs then
          stripTagsAux fuel (skipRawElement scriptName (dropThroughGt cs))
        else if styleName.isPrefixOf cs then
          stripTagsAux fuel (skipRawElement styleName (dropThroughGt cs))
        else if noscriptName.isPrefixOf cs then
          stripTagsAux fuel (skipRawElement noscriptName (dropThroughGt cs))
        else
          stripTagsAux fuel (dropThroughGt cs)
      else c :: stripTagsAux fuel cs

def stripTags (s : String) : String :=
  String.mk (stripTagsAux s.data.length s.data)

/-- src/main.js `htmlToText`: falsy input gives null, otherwise the fragment's
text content is whitespace-normalized. -/
def htmlToText (html : JsVal) : Option String :=
  if jsFalsy html then none
  else normalizeWhitespace (.str (stripTags (jsToString html)))

/-! ### The embedded-payload scanner (`countableJson`)

`countableJson(text, marker)` finds the marker, finds the first brace after
it, and scans forward adjusting a depth counter on every single `{` / `}`
character (string literals are not treated specially), returning the slice up
to the character that brings the depth back to zero. -/

def lbrace : Char := Char.ofNat 123
def rbrace : Char := Char.ofNat 125

/-- `text.indexOf(ch, start)`. -/
def findCharFrom (l : List Char) (t : Char) (start : Nat) : Option Nat :=
  ((l.drop start).findIdx? (fun c => c = t)).map (· + start)

/-- The scanning loop of `countableJson`: returns the offset of the `}` that
brings the running depth to zero. -/
def braceClose : List Char → Int → Option Nat
  | [], _ => none
  | c :: cs, depth =>
      if c = lbrace then (braceClose cs (depth + 1)).map (· + 1)
      else if c = rbrace then
        if depth - 1 = 0 then some 0 else (braceClose cs (depth - 1)).map (· + 1)
      else (braceClose cs depth).map (· + 1)

def countableJson (text marker : List Char) : Option (List Char) :=
  match findSub text marker with
  | none => none
  | some startIndex =>
      match findCharFrom text lbrace startIndex with
      | none => none
      | some firstBrace =>
          match braceClose (text.drop firstBrace) 0 with
          | none => none
          | some j => some ((text.drop firstBrace).take (j + 1))

/-! ### URL helpers

The `URL` class is modelled by a light parser: an origin is everything through
the host, the pathname runs from the first `/` after the host to the query or
fragment.  A string without `://` models a URL whose construction throws
(caught by the `try`/`catch` fallbacks in the source).  Relative resolution is
modelled for the root-relative and absolute forms the scraper actually
produces. -/

def urlOrigin (u : String) : Option String :=
  match findSub u.data "://".data with
  | none => none
  | some i =>
      let afterIdx := i + 3
      let host := (u.data.drop afterIdx).takeWhile
        (fun c => c != '/' && c != '?' && c != '#')
      some (String.mk (u.data.take (afterIdx + host.length)))

def urlPathname (u : String) : Option String :=
  match findSub u.data "://".data with
  | none => none
  | some i =>
      let rest := u.data.drop (i + 3)
      let afterHost := rest.dropWhile (fun c => c != '/' && c != '?' && c != '#')
      let path := afterHost.takeWhile (fun c => c != '?' && c != '#')
      some (if path.isEmpty then "/" else String.mk path)

/-- src/main.js `getBaseFromUrl`: the URL's origin, or the fixed default when
parsing fails. -/
def getBaseFromUrl (rawUrl : String) : String :=
  match urlOrigin rawUrl with
  | some origin => origin
  | none => "https://www.randstad.com"

/-- src/main.js `getJobsPath`: the pathname when it starts with `/jobs`,
otherwise `/jobs/` (also on parse failure). -/
def getJobsPath (rawUrl : String) : String :=
  match urlPathname rawUrl with
  | some p => if startsWithS p "/jobs" then p else "/jobs/"
  | none => "/jobs/"

/-- `new URL(rel, base).href` for the shapes produced by the scraper: absolute
URLs pass through, root-relative paths attach to the base's origin. -/
def resolveUrl (base rel : String) : String :=
  if startsWithS rel "http" then rel
  else if startsWithS rel "/" then getBaseFromUrl base ++ rel
  else getBaseFromUrl base ++ "/" ++ rel

/-- src/main.js `buildSearchUrl`: blank parameters are omitted entirely, the
page parameter only appears from page 2 on.  (Percent-encoding is not
modelled; the parameter values used in this development are URL-safe.) -/
def buildSearchUrl (keyword location postedDate : String) (page : Nat)
    (baseOrigin jobsPath : String) : String :=
  let path := if jobsPath = "" then "/jobs/" else jobsPath
  let origin := if baseOrigin = "" then "https://www.randstad.com" else baseOrigin
  let params :=
    (if keyword ≠ "" then [("q", trimS keyword)] else []) ++
    (if location ≠ "" then [("location", trimS location)] else []) ++
    (if postedDate ≠ "" ∧ postedDate ≠ "any" then [("date", postedDate)] else []) ++
    (if page > 1 then [("page", toString page)] else [])
  let query := String.intercalate "&" (params.map (fun p => p.1 ++ "=" ++ p.2))
  origin ++ path ++ (if query = "" then "" else "?" ++ query)

/-! ### `composeJobUrl` -/

def isSlugChar (c : Char) : Bool := ('a' ≤ c && c ≤ 'z') || ('0' ≤ c && c ≤ '9')

/-- One slug part: `.replace(/[^a-z0-9]+/g, '_').replace(/^_+|_+$/g, '')`,
i.e. the maximal `[a-z0-9]` runs joined by single underscores.  (The NFKD
diacritic folding step is not modelled; it is the identity on the ASCII data
used here.) -/
def slugifyPart (s : String) : String :=
  String.intercalate "_" ((runsAux isSlugChar s.data []).map String.mk)

/-- src/main.js `composeJobUrl`. -/
def composeJobUrl (job : JsVal) (baseOrigin : String) : Option String :=
  let sanitized := jsOr (jsGet job "BlueXSanitized") .objNil
  let jobId := jsOr (jsGet (jsGet job "BlueXJobData") "JobId")
    (jsOr (jsGet job "JobId") (jsGet job "_id"))
  let slugParts : List String :=
    (if jsTruthy (jsGet sanitized "Title")
      then [toLowerS (jsToString (jsGet sanitized "Title"))] else []) ++
    (if jsTruthy (jsGet sanitized "City")
      then [toLowerS (jsToString (jsGet sanitized "City"))] else []) ++
    (if jsTruthy jobId then [jsToString jobId] else [])
  if slugParts.isEmpty then none
  else
    let slug := String.intercalate "_"
      ((slugParts.map slugifyPart).filter (fun p => p ≠ ""))
    if slug = "" then none
    else
      let base := if baseOrigin = "" then "https://www.randstad.com" else baseOrigin
      let jobs := getJobsPath base
      let jobs := if endsWithS jobs "/" then dropRightS jobs 1 else jobs
      some (getBaseFromUrl base ++ jobs ++ "/" ++ slug ++ "/")

/-! ### Location and salary extraction -/

structure LocInfo where
  city : JsVal := .null
  region : JsVal := .null
  country : JsVal := .null
  postalCode : JsVal := .null
  location : JsVal := .null

/-- `pieces.filter(Boolean)` joined with `", "`, or null when empty. -/
def joinPieces (pieces : List JsVal) : JsVal :=
  let ps := pieces.filter jsTruthy
  if ps.isEmpty then .null
  else .str (String.intercalate ", " (ps.map jsToString))

/-- src/main.js `deriveLocation` (optional chaining makes it total on null). -/
def deriveLocation (source : JsVal) : LocInfo :=
  let location := jsOr (jsGet source "JobLocation") .objNil
  let sanitized := jsOr (jsGet source "BlueXSanitized") .objNil
  let city := jsOr (jsGet location "City") (jsGet sanitized "City")
  let region := jsOr (jsGet location "Region") (jsGet sanitized "Region")
  let country := jsOr (jsGet location "Country") (jsGet sanitized "Country")
  let postcode := jsOr (jsGet location "Postcode") (jsGet sanitized "Postcode")
  { city := jsOrNull city
    region := jsOrNull region
    country := jsOrNull country
    postalCode := jsOrNull postcode
    location := joinPieces [city, region, country] }

structure SalaryJs where
  minimum : JsVal := .null
  maximum : JsVal := .null
  currency : JsVal := .null
  interval : JsVal := .null
  text : JsVal := .null

/-- The body of src/main.js `extractSalary`, run on a non-null source. -/
def extractSalaryCore (source : JsVal) : SalaryJs :=
  let salary := jsOr (jsGet source "Salary") .objNil
  let jobData := jsOr (jsGet source "BlueXJobData") .objNil
  { minimum := jsOrNull (jsOr (jsGet salary "SalaryMin") (jsGet jobData "MinimumSalary"))
    maximum := jsOrNull (jsOr (jsGet salary "SalaryMax") (jsGet jobData "MaximumSalary"))
    currency := jsOrNull (jsOr (jsGet salary "CurrencyId") (jsGet jobData "Currency"))
    interval := jsOrNull (jsOr (jsGet salary "CompensationType") (jsGet jobData "CompensationType"))
    text := jsOrNull (jsOr (jsGet jobData "CompensationText") (jsGet salary "CompensationText")) }

/-- src/main.js `extractSalary`: reads `source.Salary` with a plain member
access, so a `null` argument throws a TypeError (the `= {}` default parameter
applies only to `undefined`).  The DETAIL branch passes it
`routeData?.jobData?...?._source || null`, which is `null` whenever the route
payload is missing. -/
def extractSalary (source : JsVal) : Except Unit SalaryJs :=
  match source with
  | .null => .error ()
  | v => .ok (extractSalaryCore v)

/-- src/main.js `deriveLocationFromJobPosting`. -/
def deriveLocationFromJobPosting (jobPosting : JsVal) : LocInfo :=
  if jsFalsy jobPosting then {}
  else
    let jl := jsGet jobPosting "jobLocation"
    let locationNode := if isArr jl then arrFirst jl else jsOr jl .objNil
    let address := jsOr (jsGet locationNode "address") (jsOr locationNode .objNil)
    let city := jsOr (jsGet address "addressLocality") (jsGet address "city")
    let region := jsOr (jsGet address "addressRegion") (jsGet address "region")
    let country := jsOr (jsGet address "addressCountry") (jsGet address "country")
    let postalCode := jsGet address "postalCode"
    { city := jsOrNull city
      region := jsOrNull region
      country := jsOrNull country
      postalCode := jsOrNull postalCode
      location := joinPieces [city, region, country] }

/-- `Number.isFinite(Number(num)) ? Number(num) : String(num)`, with null
passed through. -/
def toNumberModel (v : JsVal) : JsVal :=
  match v with
  | .null => .null
  | v => match jsToNumber v with
      | some n => .num n
      | none => .str (jsToString v)

/-- src/main.js `extractSalaryFromJobPosting`. -/
def extractSalaryFromJobPosting (jobPosting : JsVal) : SalaryJs :=
  let baseSalary := jsOr (jsGet jobPosting "baseSalary") .objNil
  let value := jsOr (jsGet baseSalary "value") .objNil
  let minRaw := softNormalize (jsGet value "minValue")
    (softNormalize (jsGet value "value") (jsGet value "minimum"))
  let maxRaw := softNormalize (jsGet value "maxValue") (jsGet value "maximum")
  { minimum := toNumberModel minRaw
    maximum := toNumberModel maxRaw
    currency := jsOrNull (jsOr (jsGet baseSalary "currency") (jsGet value "currency"))
    interval := jsOrNull (jsOr (jsGet value "unitText") (jsGet baseSalary "unitText"))
    text := jsOrNull (jsGet value "text") }

/-! ### JSON-LD selection (`extractJsonLd`)

Script-block collection and `JSON.parse` are abstracted: a page is given by
the list of successfully parsed JSON-LD payloads.  The flattening and the
JobPosting selection are translated from the source. -/

/-- The recursive `flatten` of `extractJsonLd`: collects every object node
(falsy values and truthy scalars contribute nothing, arrays are walked but
not collected; an object is collected and then its values are walked).  The
`tailMode` flag distinguishes walking an object's remaining fields from
flattening a fresh value, so that the recursion is structural. -/
def flattenAux : Bool → JsVal → List JsVal
  | _, .null => []
  | _, .str _ => []
  | _, .num _ => []
  | _, .arrNil => []
  | tailMode, .arrCons h t =>
      if tailMode then []
      else flattenAux false h ++ flattenAux false t
  | tailMode, .objNil => if tailMode then [] else [.objNil]
  | tailMode, .objCons k v r =>
      if tailMode then flattenAux false v ++ flattenAux true r
      else .objCons k v r :: (flattenAux false v ++ flattenAux true r)

def flattenJs (v : JsVal) : List JsVal := flattenAux false v

def flattenJsList (l : List JsVal) : List JsVal := l.flatMap flattenJs

def isJobPosting (item : JsVal) : Bool :=
  let t := jsGet item "@type"
  if jsFalsy t then false
  else if isArr t then (jsArrToList t).any (fun x => jsEqb x (.str "JobPosting"))
  else jsEqb t (.str "JobPosting")

structure JsonLdResult where
  jobPosting : JsVal := .null
  all : List JsVal := []

def extractJsonLd (payloads : List JsVal) : JsonLdResult :=
  let flat := flattenJsList payloads
  { jobPosting := (match flat.find? isJobPosting with
      | some j => j
      | none => .null)
    all := payloads }

/-! ### Salary formatting -/

/-- `Number(min) !== Number(max)`: strict inequality with NaN unequal to
everything, including itself. -/
def numNotEq (a b : JsVal) : Bool :=
  match jsToNumber a, jsToNumber b with
  | some x, some y => x ≠ y
  | _, _ => true

/-- src/main.js `formatSalaryString`.  The alternate key spellings
(`Currency`, `min`, `max`, `intervalText`) read by the source are never
populated by either variant, so they contribute null here. -/
def formatSalaryString (salary : SalaryJs) (fallback : JsVal) : Option String :=
  let currency := jsOrNull salary.currency
  let mn := jsOrNull salary.minimum
  let mx := jsOrNull salary.maximum
  let interval := jsOrNull salary.interval
  let pieces : List JsVal :=
    (if jsTruthy currency && (jsTruthy mn || jsTruthy mx) then [currency] else []) ++
    (if jsTruthy mn && jsTruthy mx && numNotEq mn mx then
        [.str (jsToString mn ++ " - " ++ jsToString mx)]
      else if jsTruthy mn || jsTruthy mx then [jsOr mn mx] else []) ++
    (if jsTruthy interval then [interval] else [])
  let textual := jsOr salary.text fallback
  let formatted := normalizeWhitespace (.str (String.intercalate " " (pieces.map jsToString)))
  match formatted with
  | some f => some f
  | none => normalizeWhitespace textual

/-! ### Record sanitization (`STRING_FIELD_SANITIZERS` / `sanitizeForDataset`) -/

/-- The three sanitizer functions appearing in `STRING_FIELD_SANITIZERS`:
whitespace normalization, the description-html passthrough
(`typeof value === 'string' ? value : value == null ? null : String(value)`),
and the job-url stringifier (`value == null ? null : String(value)`). -/
inductive SanKind where
  | normWs
  | htmlStr
  | rawStr
deriving DecidableEq

def applySanitizer : SanKind → JsVal → Option String
  | .normWs, v => normalizeWhitespace v
  | .htmlStr, .str s => some s
  | .htmlStr, .null => none
  | .htmlStr, v => some (jsToString v)
  | .rawStr, .null => none
  | .rawStr, v => some (jsToString v)

def STRING_FIELD_SANITIZERS : List (String × SanKind) :=
  [("title", .normWs), ("company", .normWs), ("location", .normWs),
   ("date_posted", .normWs), ("job_type", .normWs), ("job_category", .normWs),
   ("description_html", .htmlStr), ("description_text", .normWs),
   ("job_url", .rawStr), ("salary", .normWs)]

/-- A JS record object: association list of fields (keys unique by
construction at every use site). -/
abbrev RecordObj := List (String × JsVal)

def getField : RecordObj → String → Option JsVal
  | [], _ => none
  | (k, v) :: r, f => if k = f then some v else getField r f

def setField : RecordObj → String → JsVal → RecordObj
  | [], _, _ => []
  | (k, w) :: r, f, v => (if k = f then (k, v) else (k, w)) :: setField r f v

def delField : RecordObj → String → RecordObj
  | [], _ => []
  | (k, w) :: r, f => if k = f then delField r f else (k, w) :: delField r f

/-- Applying a sanitizer result: null/undefined/empty delete the field,
anything else replaces it. -/
def sanitizeApply (out : RecordObj) (f : String) : Option String → RecordObj
  | none => delField out f
  | some s => if s = "" then delField out f else setField out f (.str s)

/-- One iteration of the `sanitizeForDataset` loop: a missing field is left
alone, a null value deletes the field, and otherwise the sanitizer runs and
its result is applied. -/
def sanitizeField (out : RecordObj) (f : String) (k : SanKind) : RecordObj :=
  match getField out f with
  | none => out
  | some .null => delField out f
  | some v => sanitizeApply out f (applySanitizer k v)

/-- src/main.js `sanitizeForDataset`. -/
def sanitizeForDataset (record : RecordObj) : RecordObj :=
  STRING_FIELD_SANITIZERS.foldl (fun out p => sanitizeField out p.1 p.2) record

/-! ### DOM-layer abstraction

The cheerio/JSDOM query engines are external; a document is therefore given
by the text/attribute/html results of the fixed queries the code performs,
and everything the code computes from those results is translated from the
source. -/

/-- One listing-page job card (`[data-testid="job-card"], .cards__item`):
the query results `parseDomFallbackList` reads from it.  `.attr` and
`.html()` give null when absent; `.text()` gives a (possibly empty) string,
modelled as a string-or-null value. -/
structure CardDoc where
  href : JsVal := .null
  anchorText : JsVal := .null
  headingText : JsVal := .null
  companyText : JsVal := .null
  locationText : JsVal := .null
  timeDatetime : JsVal := .null
  timeText : JsVal := .null
  salaryText : JsVal := .null
  snippetHtml : JsVal := .null

/-- One entry of `parseDomFallbackList`'s result. -/
structure DomJob where
  jobUrl : String
  title : JsVal
  company : JsVal
  location : JsVal
  postedAt : JsVal
  salaryText : JsVal
  snippetHtml : JsVal

/-- src/main.js `parseDomFallbackList`. -/
def parseDomFallbackList (cards : List CardDoc) (baseUrl : String) : List DomJob :=
  cards.filterMap (fun card =>
    if jsFalsy card.href then none
    else
      let href := jsToString card.href
      let jobUrl := if startsWithS href "http" then href else resolveUrl baseUrl href
      let title := jsOr (optToJs (normalizeWhitespace card.anchorText))
        (optToJs (normalizeWhitespace card.headingText))
      let company := jsOr (optToJs (normalizeWhitespace card.companyText)) (.str "Randstad")
      let location := optToJs (normalizeWhitespace card.locationText)
      let postedAt := optToJs (normalizeWhitespace (jsOr card.timeDatetime card.timeText))
      let salaryText := optToJs (normalizeWhitespace card.salaryText)
      if jsTruthy title ∧ jobUrl ≠ "" then
        some { jobUrl := jobUrl, title := title, company := company, location := location,
               postedAt := postedAt, salaryText := salaryText,
               snippetHtml := jsOrNull card.snippetHtml }
      else none)

/-- Detail-page query results read by src/main.js `parseDomFallbackDetail`
(JSDOM): the `h1` text content, the first description element's innerHTML and
the posted-date attribute. -/
structure DocM where
  h1TextContent : JsVal := .null
  descriptionInnerHtml : JsVal := .null
  postedDatetimeAttr : JsVal := .null

structure DomDetailM where
  title : JsVal
  descriptionHtml : JsVal
  postedAt : JsVal

/-- src/main.js `parseDomFallbackDetail`: each field is the query result
`|| null`. -/
def parseDomFallbackDetailM (doc : DocM) : DomDetailM :=
  { title := jsOrNull doc.h1TextContent
    descriptionHtml := jsOrNull doc.descriptionInnerHtml
    postedAt := jsOrNull doc.postedDatetimeAttr }

/-! Variant B's `parseDomFallbackDetail` works on many more selectors; the
`.text().trim()` results are (possibly empty) strings and the `.attr`
results string-or-null values.  Note that in the source the description
selector chain `$(a).first() || $(b).first() || ...` is decided by the first
alternative alone, because a cheerio wrapper object is always truthy; the
model therefore carries a single `descriptionHtml` query result. -/
structure DocB where
  h1Text : String := ""
  blockTitleText : String := ""
  testidTitleText : String := ""
  logoCompanyText : String := ""
  testidCompanyText : String := ""
  behatLocationText : String := ""
  testidLocationText : String := ""
  classLocationText : String := ""
  descriptionHtml : JsVal := .null
  postedDatetimeAttr : JsVal := .null
  timeDatetimeAttr : JsVal := .null
  behatExpirationText : String := ""
  classDateText : String := ""
  behatJobTypeText : String := ""
  testidJobTypeText : String := ""
  classJobTypeText : String := ""
  behatSalaryText : String := ""
  testidSalaryText : String := ""
  classSalaryText : String := ""

structure DomDetailB where
  title : JsVal := .null
  company : JsVal := .null
  location : JsVal := .null
  city : JsVal := .null
  region : JsVal := .null
  country : JsVal := .null
  postalCode : JsVal := .null
  descriptionHtml : JsVal := .null
  postedAt : JsVal := .null
  jobType : JsVal := .null
  salary : JsVal := .null

def strOr (a b : String) : String := if a = "" then b else a

def strOrNull (a : String) : JsVal := if a = "" then .null else .str a

def isWordChar (c : Char) : Bool := c.isAlphanum || c = '_'

def digitsPrefix (l : List Char) : List Char := l.takeWhile (fun c => c.isDigit)

def headNonWord : List Char → Bool
  | [] => true
  | c :: _ => !isWordChar c

/-- Tries the regex `\b\d{5}(?:-\d{4})?\b` at the current position, which must
already sit at a word boundary: five digits, then greedily the `-\d{4}`
extension when it is followed by a boundary, otherwise the bare five digits
when they are followed by a boundary. -/
def zipTryAt (l : List Char) : Option (List Char) :=
  let d5 := (digitsPrefix l).take 5
  if d5.length = 5 then
    let rest := l.drop 5
    match rest with
    | '-' :: r2 =>
        let d4 := (digitsPrefix r2).take 4
        if d4.length = 4 ∧ headNonWord (r2.drop 4) then some (d5 ++ '-' :: d4)
        else some d5
    | _ => if headNonWord rest then some d5 else none
  else none

def zipScan : List Char → Bool → Option (List Char)
  | [], _ => none
  | c :: cs, prevWord =>
      (if !prevWord then zipTryAt (c :: cs) else none) <|> zipScan cs (isWordChar c)

/-- `location.match(/\b\d{5}(?:-\d{4})?\b/)`, first match. -/
def zipMatch (s : String) : Option String := (zipScan s.data false).map String.mk

/-- Variant B `parseDomFallbackDetail`. -/
def parseDomFallbackDetailB (doc : DocB) : DomDetailB :=
  let titleS := strOr doc.h1Text (strOr doc.blockTitleText doc.testidTitleText)
  let companyS := strOr doc.logoCompanyText (strOr doc.testidCompanyText "Randstad")
  let locationS := strOr doc.behatLocationText (strOr doc.testidLocationText doc.classLocationText)
  let comps :=
    if locationS = "" then (JsVal.null, JsVal.null, JsVal.null)
    else
      let parts := (splitOnChar ',' locationS).map trimS
      if 3 ≤ parts.length then
        (JsVal.str (parts.getD 0 ""), JsVal.str (parts.getD 1 ""), JsVal.str (parts.getD 2 ""))
      else if parts.length = 2 then
        (JsVal.str (parts.getD 0 ""), JsVal.null, JsVal.str (parts.getD 1 ""))
      else (JsVal.str locationS, JsVal.null, JsVal.null)
  let postalCode :=
    if locationS = "" then JsVal.null
    else match zipMatch locationS with
      | some z => .str z
      | none => .null
  let postedAt := jsOrNull (jsOr doc.postedDatetimeAttr (jsOr doc.timeDatetimeAttr
    (jsOr (.str doc.behatExpirationText) (.str doc.classDateText))))
  let jobTypeS := strOr doc.behatJobTypeText (strOr doc.testidJobTypeText doc.classJobTypeText)
  let salaryS := strOr doc.behatSalaryText (strOr doc.testidSalaryText doc.classSalaryText)
  { title := strOrNull titleS
    company := .str companyS
    location := strOrNull locationS
    city := comps.1
    region := comps.2.1
    country := comps.2.2
    postalCode := postalCode
    descriptionHtml := jsOrNull doc.descriptionHtml
    postedAt := postedAt
    jobType := strOrNull jobTypeS
    salary := if salaryS = "" then .null else jobj [("text", .str salaryS)] }

/-! ### Previews -/

/-- A listing-page preview as built by the LIST branch.  `snippetHtml` is set
only by variant B's listing scan (absent, i.e. null, in src/main.js
previews); `sourceRaw` is never read downstream and is not modelled. -/
structure Preview where
  jobId : JsVal := .null
  jobUrl : String := ""
  title : JsVal := .null
  company : JsVal := .null
  location : JsVal := .null
  city : JsVal := .null
  region : JsVal := .null
  country : JsVal := .null
  postalCode : JsVal := .null
  jobType : JsVal := .null
  jobCategory : JsVal := .null
  postedAt : JsVal := .null
  salary : SalaryJs := {}
  snippet : JsVal := .null
  snippetHtml : JsVal := .null

/-- `{...source, _id: hit._id}`. -/
def jsObjSet (v : JsVal) (k : String) (x : JsVal) : JsVal :=
  if isObj v then jobj ((jsObjToList v).filter (fun p => p.1 != k) ++ [(k, x)])
  else jobj [(k, x)]

/-- The jobUrl computation of the LIST hit loop: the payload URL (resolved
against the base origin when relative), else `composeJobUrl`, else none
(`continue`). -/
def hitJobUrl (source hitId : JsVal) (baseOrigin reqUrl : String) : Option String :=
  let raw := jsOr (jsGet (jsGet source "BlueXJobData") "JobUrl")
    (jsGet (jsGet source "JobInformation") "JobUrl")
  if jsTruthy raw then
    let s := jsToString raw
    some (if startsWithS s "http" then s
      else resolveUrl (if baseOrigin = "" then getBaseFromUrl reqUrl else baseOrigin) s)
  else composeJobUrl (jsObjSet source "_id" hitId) baseOrigin

/-- The jobId computation of the LIST hit loop:
`source.BlueXJobData?.JobId || source.JobId || hit._id`. -/
def hitJobId (source hitId : JsVal) : JsVal :=
  jsOr (jsGet (jsGet source "BlueXJobData") "JobId") (jsOr (jsGet source "JobId") hitId)

/-- The preview object pushed for one route-payload hit. -/
def previewOfHit (source : JsVal) (jobUrl : String) (jobId : JsVal) : Preview :=
  let locationInfo := deriveLocation source
  let salary := extractSalaryCore source
  { jobId := jobId
    jobUrl := jobUrl
    title := jsOr (optToJs (normalizeWhitespace (jsGet (jsGet source "JobInformation") "Title")))
      (optToJs (normalizeWhitespace (jsGet (jsGet source "BlueXJobData") "Title")))
    company := optToJs (normalizeWhitespace (jsOr (jsGet (jsGet source "JobIdentity") "CompanyName")
      (jsOr (jsGet (jsGet source "BlueXJobData") "CompanyName") (.str "Randstad"))))
    location := locationInfo.location
    city := locationInfo.city
    region := locationInfo.region
    country := locationInfo.country
    postalCode := locationInfo.postalCode
    jobType := optToJs (normalizeWhitespace (jsOr (jsGet (jsGet source "JobInformation") "JobType")
      (jsGet (jsGet source "BlueXJobData") "JobType")))
    jobCategory := optToJs (normalizeWhitespace (jsOr (jsGet (jsGet source "BlueXSanitized") "Specialism")
      (jsGet (jsGet source "BlueXJobData") "Specialism")))
    postedAt := jsOrNull (jsOr (jsGet (jsGet source "JobDates") "DateCreated")
      (jsGet (jsGet source "JobDates") "DateCreatedTime"))
    salary := salary
    snippet := optToJs (htmlToText (jsOr (jsGet (jsGet source "JobInformation") "Description")
      (jsGet (jsGet source "BlueXJobData") "Description")))
    snippetHtml := .null }

/-- JS `Set.has` over the mixed id/url seen-set (SameValueZero on the scalar
keys actually stored). -/
def seenAny (seen : List JsVal) (v : JsVal) : Bool := seen.any (fun x => jsEqb x v)

/-- The seen-set update on accepting a preview: with dedupe on, both the
truthy job id and the job url are recorded. -/
def scanSeenUpdate (dedupe : Bool) (jobId : JsVal) (jobUrl : String)
    (seen : List JsVal) : List JsVal :=
  if dedupe then (if jsTruthy jobId then [jobId] else []) ++ (JsVal.str jobUrl) :: seen
  else seen

/-- The route-payload preview loop of the LIST branch: per hit, skip when the
source is falsy or no jobUrl can be formed, apply the dedupe guards, then
accept the preview and record its id and url in the seen-set. -/
def scanHits (dedupe : Bool) (baseOrigin reqUrl : String) :
    List JsVal → List Preview → List JsVal → (List Preview × List JsVal)
  | [], previews, seen => (previews, seen)
  | hit :: rest, previews, seen =>
      if jsFalsy (jsGet hit "_source") then scanHits dedupe baseOrigin reqUrl rest previews seen
      else
        match hitJobUrl (jsGet hit "_source") (jsGet hit "_id") baseOrigin reqUrl with
        | none => scanHits dedupe baseOrigin reqUrl rest previews seen
        | some jobUrl =>
            if dedupe && jsTruthy (hitJobId (jsGet hit "_source") (jsGet hit "_id"))
                && seenAny seen (hitJobId (jsGet hit "_source") (jsGet hit "_id")) then
              scanHits dedupe baseOrigin reqUrl rest previews seen
            else if dedupe && seenAny seen (.str jobUrl) then
              scanHits dedupe baseOrigin reqUrl rest previews seen
            else
              scanHits dedupe baseOrigin reqUrl rest
                (previews ++ [previewOfHit (jsGet hit "_source") jobUrl
                  (hitJobId (jsGet hit "_source") (jsGet hit "_id"))])
                (scanSeenUpdate dedupe (hitJobId (jsGet hit "_source") (jsGet hit "_id"))
                  jobUrl seen)

/-- `/_(\d+)(?:\/|$)/` on a job URL: the first underscore followed by digits
reaching a slash or the end of the string. -/
def underscoreIdAux : List Char → Option (List Char)
  | [] => none
  | c :: cs =>
      if c = '_' then
        let ds := digitsPrefix cs
        if ds.isEmpty then underscoreIdAux cs
        else match cs.drop ds.length with
          | [] => some ds
          | '/' :: _ => some ds
          | _ => underscoreIdAux cs
      else underscoreIdAux cs

def underscoreIdMatch (s : String) : Option String :=
  (underscoreIdAux s.data).map String.mk

/-- The preview object pushed for one DOM-fallback job. -/
def previewOfDomJob (job : DomJob) (jobId : JsVal) : Preview :=
  { jobId := jobId
    jobUrl := job.jobUrl
    title := job.title
    company := job.company
    location := job.location
    city := .null
    region := .null
    country := .null
    postalCode := .null
    jobType := .null
    jobCategory := .null
    postedAt := job.postedAt
    salary := { minimum := .null, maximum := .null, currency := .null,
                interval := .null, text := job.salaryText }
    snippet := optToJs (htmlToText job.snippetHtml)
    snippetHtml := .null }

/-- The DOM-fallback preview loop of the LIST branch (runs only when the
route payload produced no previews); note it checks the url before the id,
the mirror image of the hit loop. -/
def scanDomJobs (dedupe : Bool) :
    List DomJob → List Preview → List JsVal → (List Preview × List JsVal)
  | [], previews, seen => (previews, seen)
  | job :: rest, previews, seen =>
      if dedupe && seenAny seen (.str job.jobUrl) then
        scanDomJobs dedupe rest previews seen
      else
        if dedupe && jsTruthy (optToJs (underscoreIdMatch job.jobUrl))
            && seenAny seen (optToJs (underscoreIdMatch job.jobUrl)) then
          scanDomJobs dedupe rest previews seen
        else
          scanDomJobs dedupe rest
            (previews ++ [previewOfDomJob job (optToJs (underscoreIdMatch job.jobUrl))])
            (scanSeenUpdate dedupe (optToJs (underscoreIdMatch job.jobUrl)) job.jobUrl seen)

/-! ### Records -/

/-- The record pushed per preview when `collectDetails` is off (field order as
in the object literal). -/
def listRecord (now : String) (p : Preview) : RecordObj :=
  [("title", p.title), ("company", p.company), ("job_url", .str p.jobUrl),
   ("job_id", p.jobId), ("location", p.location), ("city", p.city),
   ("region", p.region), ("country", p.country), ("postal_code", p.postalCode),
   ("job_type", p.jobType), ("job_category", p.jobCategory),
   ("date_posted", p.postedAt),
   ("salary", optToJs (formatSalaryString p.salary .null)),
   ("salary_min", jsOrNull p.salary.minimum), ("salary_max", jsOrNull p.salary.maximum),
   ("salary_currency", jsOrNull p.salary.currency),
   ("salary_interval", jsOrNull p.salary.interval),
   ("salary_text", jsOrNull p.salary.text),
   ("snippet", p.snippet), ("data_source", .str "list"),
   ("extraction_notes", .str "Parsed from __ROUTE_DATA__ searchResults payload with DOM fallback."),
   ("scraped_at", .str now)]

/-- `preview?.f` for a field of the carried preview. -/
def pvGet (p : Option Preview) (f : Preview → JsVal) : JsVal :=
  match p with
  | some pv => f pv
  | none => .null

/-- `preview?.salary?.f ?? null`. -/
def pvSal (p : Option Preview) (f : SalaryJs → JsVal) : JsVal :=
  match p with
  | some pv => f pv.salary
  | none => .null

/-- Shorthand for a nullish-coalescing step. -/
def nn (a b : JsVal) : JsVal := softNormalize a b

/-- The merged `locationInfo` of the DETAIL branch of src/main.js:
per component, payload → JSON-LD → preview → null. -/
def mergeLocM (a b : LocInfo) (p : Option Preview) : LocInfo :=
  { city := jsOrNull (jsOr a.city (jsOr b.city (pvGet p (·.city))))
    region := jsOrNull (jsOr a.region (jsOr b.region (pvGet p (·.region))))
    country := jsOrNull (jsOr a.country (jsOr b.country (pvGet p (·.country))))
    postalCode := jsOrNull (jsOr a.postalCode (jsOr b.postalCode (pvGet p (·.postalCode))))
    location := jsOrNull (jsOr a.location (jsOr b.location (pvGet p (·.location)))) }

/-- Variant B's merged `locationInfo`: the DOM heuristic comes first. -/
def mergeLocB (dom : DomDetailB) (a b : LocInfo) (p : Option Preview) : LocInfo :=
  { city := jsOrNull (jsOr dom.city (jsOr a.city (jsOr b.city (pvGet p (·.city)))))
    region := jsOrNull (jsOr dom.region (jsOr a.region (jsOr b.region (pvGet p (·.region)))))
    country := jsOrNull (jsOr dom.country (jsOr a.country (jsOr b.country (pvGet p (·.country)))))
    postalCode := jsOrNull (jsOr dom.postalCode (jsOr a.postalCode (jsOr b.postalCode (pvGet p (·.postalCode)))))
    location := jsOrNull (jsOr dom.location (jsOr a.location (jsOr b.location (pvGet p (·.location))))) }

/-- The `employmentType` IIFE of src/main.js. -/
def employmentTypeM (jobData jobPosting : JsVal) (p : Option Preview) : JsVal :=
  if jsTruthy (jsGet (jsGet jobData "JobInformation") "JobType") then
    jsGet (jsGet jobData "JobInformation") "JobType"
  else
    let et := jsGet jobPosting "employmentType"
    if isArr et then .str (String.intercalate ", " ((jsArrToList et).map jsToStringElem))
    else match et with
      | .str s => .str s
      | _ => jsOrNull (pvGet p (·.jobType))

/-- Variant B's `employmentType` IIFE: the DOM job type comes first. -/
def employmentTypeB (dom : DomDetailB) (jobData jobPosting : JsVal) (p : Option Preview) : JsVal :=
  if jsTruthy dom.jobType then dom.jobType
  else employmentTypeM jobData jobPosting p

/-- The `identifierFromJsonLd` IIFE. -/
def identifierFromJsonLd (jobPosting : JsVal) : JsVal :=
  let idf := jsGet jobPosting "identifier"
  if jsFalsy idf then .null
  else match idf with
    | .str s => .str s
    | idf =>
        if isObjLike idf then
          jsOrNull (jsOr (jsGet idf "value") (jsOr (jsGet idf "name") (jsGet idf "propertyID")))
        else .null

/-- `new Set(xs)` on the already-truthiness-filtered tag values: keeps the
first occurrence of each value. -/
def dedupJsAux : List JsVal → List JsVal → List JsVal
  | [], _ => []
  | v :: vs, seen =>
      if seen.any (fun x => jsEqb x v) then dedupJsAux vs seen
      else v :: dedupJsAux vs (v :: seen)

def dedupJs (l : List JsVal) : List JsVal := dedupJsAux l []

def tagsOf (jobData jobPosting : JsVal) : JsVal :=
  jarr (dedupJs ([jsGet (jsGet jobData "BlueXSanitized") "Specialism",
    jsGet (jsGet jobData "BlueXSanitized") "SubSpecialism",
    jsGet jobPosting "occupationalCategory"].filter jsTruthy))

/-- `item.itemListElement || []` flattened one level by `flatMap` for a
BreadcrumbList item. -/
def crumbsOfItem (item : JsVal) : List JsVal :=
  if jsEqb (jsGet item "@type") (.str "BreadcrumbList") then
    let le := jsOr (jsGet item "itemListElement") .arrNil
    (if isArr le then jsArrToList le else [le])
  else []

def breadcrumbsOf (all : List JsVal) : JsVal :=
  jarr ((all.flatMap crumbsOfItem).map (fun crumb =>
    jobj [("position", jsGet crumb "position"), ("name", jsGet crumb "name"),
          ("item", jsGet crumb "item")]))

/-- `routeData?.jobData?.hits?.hits?.[0]?._source || null` (and the analogous
searchResults path). -/
def routeJobData (routeData : JsVal) : JsVal :=
  jsOrNull (jsGet (arrFirst (jsGet (jsGet (jsGet routeData "jobData") "hits") "hits")) "_source")

/-- The DETAIL record of src/main.js (object-literal field order preserved).
`salCombined` is passed in because computing it (`extractSalary(jobData)`)
can throw; everything else here is total. -/
def detailRecordM (now jobUrl : String) (jobData jobPosting : JsVal)
    (jsonLdAll : List JsVal) (dom : DomDetailM) (p : Option Preview)
    (reqJobId : JsVal) (salCombined : SalaryJs) : RecordObj :=
  let locationInfo := mergeLocM (deriveLocation jobData) (deriveLocationFromJobPosting jobPosting) p
  let employmentType := employmentTypeM jobData jobPosting p
  let descriptionHtml := jsOrNull (jsOr (jsGet (jsGet jobData "JobInformation") "Description")
    (jsOr (jsGet jobPosting "description") dom.descriptionHtml))
  let idLd := identifierFromJsonLd jobPosting
  let postedDate := nn (jsGet (jsGet jobData "JobDates") "DateCreatedTime")
    (jsOr dom.postedAt (jsOr (jsGet jobPosting "datePosted") (pvGet p (·.postedAt))))
  [("title", nn (jsGet (jsGet jobData "JobInformation") "Title")
      (jsOr dom.title (pvGet p (·.title)))),
   ("company", nn (jsGet (jsGet jobData "JobIdentity") "CompanyName")
      (jsOr (pvGet p (·.company))
        (jsOr (jsGet (jsGet jobPosting "hiringOrganization") "name") (.str "Randstad")))),
   ("job_url", .str jobUrl),
   ("job_id", nn (jsGet jobData "JobId") (jsOr (pvGet p (·.jobId)) (jsOr idLd reqJobId))),
   ("reference_number", nn (jsGet (jsGet jobData "BlueXJobData") "ReferenceNumber") idLd),
   ("location", nn locationInfo.location (pvGet p (·.location))),
   ("city", nn locationInfo.city .null),
   ("region", nn locationInfo.region .null),
   ("country", nn locationInfo.country .null),
   ("postal_code", nn locationInfo.postalCode .null),
   ("job_type", nn (jsGet (jsGet jobData "JobInformation") "JobType") employmentType),
   ("employment_type", nn employmentType (jsGet (jsGet jobData "JobInformation") "JobType")),
   ("job_category", nn (jsGet (jsGet jobData "BlueXSanitized") "Specialism")
      (jsOr (pvGet p (·.jobCategory)) (jsGet jobPosting "industry"))),
   ("date_posted", postedDate),
   ("valid_through", nn (jsGet jobPosting "validThrough")
      (jsGet (jsGet jobData "JobDates") "ExpirationDate")),
   ("salary_min", salCombined.minimum),
   ("salary_max", salCombined.maximum),
   ("salary_currency", salCombined.currency),
   ("salary_interval", salCombined.interval),
   ("salary", optToJs (formatSalaryString salCombined (pvSal p (·.text)))),
   ("salary_text", jsOrNull (jsOr salCombined.text (pvSal p (·.text)))),
   ("description_html", descriptionHtml),
   ("description_text", optToJs (htmlToText descriptionHtml)),
   ("requirements", optToJs (htmlToText (jsOr (jsGet (jsGet jobData "JobInformation") "Requirements")
      (jsOr (jsGet jobPosting "qualifications") (jsGet jobPosting "responsibilities"))))),
   ("benefits", optToJs (htmlToText (jsOr (jsGet (jsGet jobData "JobInformation") "Benefits")
      (jsGet jobPosting "jobBenefits")))),
   ("tags", tagsOf jobData jobPosting),
   ("seniority", jsOrNull (jsGet (jsGet jobData "JobInformation") "Seniority")),
   ("work_hours", jsOrNull (jsOr (jsGet (jsGet jobData "JobInformation") "Hours")
      (jsGet jobPosting "workHours"))),
   ("remote_type", jsOrNull (jsGet jobPosting "jobLocationType")),
   ("seo_title", nn (jsGet jobPosting "title") .null),
   ("breadcrumbs", breadcrumbsOf jsonLdAll),
   ("api_source", jobData),
   ("json_ld", jsOrNull jobPosting),
   ("scraped_at", .str now),
   ("data_source", .str "detail"),
   ("extraction_notes", .str "Combined __ROUTE_DATA__.jobData payload, JSON-LD, and DOM fallbacks.")]

/-- Variant B's title resolution (its DETAIL record line):
`softNormalize(domFallback.title, jobData?.JobInformation?.Title || preview?.title) || 'Untitled'`. -/
def resolveTitleB (domTitle embTitle prevTitle : JsVal) : JsVal :=
  jsOr (softNormalize domTitle (jsOr embTitle prevTitle)) (.str "Untitled")

/-- Variant B's company resolution:
`softNormalize(domFallback.company, jobData?.JobIdentity?.CompanyName || preview?.company || jsonLd.jobPosting?.hiringOrganization?.name || 'Randstad')`. -/
def resolveCompanyB (domCompany embCompany prevCompany ldCompany : JsVal) : JsVal :=
  softNormalize domCompany (jsOr embCompany (jsOr prevCompany (jsOr ldCompany (.str "Randstad"))))

/-- Modelled from the spec: the claimed fixed source-priority order for the
title/company fields — markup-heuristic, then embedded-payload, then
structured-linked-data, then the carried preview, first non-empty winning. -/
def specOrderResolve (markup embedded linked preview : JsVal) : JsVal :=
  jsOr markup (jsOr embedded (jsOr linked preview))

/-- Variant B's DETAIL record. -/
def detailRecordB (now jobUrl : String) (jobData jobPosting : JsVal)
    (jsonLdAll : List JsVal) (dom : DomDetailB) (p : Option Preview)
    (reqJobId : JsVal) (salCombined : SalaryJs) (hasStructuredData : Bool) : RecordObj :=
  let locationInfo := mergeLocB dom (deriveLocation jobData) (deriveLocationFromJobPosting jobPosting) p
  let employmentType := employmentTypeB dom jobData jobPosting p
  let descriptionHtml := jsOrNull (jsOr dom.descriptionHtml
    (jsOr (jsGet (jsGet jobData "JobInformation") "Description")
      (jsOr (jsGet jobPosting "description") (pvGet p (·.snippetHtml)))))
  let idLd := identifierFromJsonLd jobPosting
  let postedDate := nn (jsGet (jsGet jobData "JobDates") "DateCreatedTime")
    (jsOr dom.postedAt (jsOr (jsGet jobPosting "datePosted") (pvGet p (·.postedAt))))
  [("title", resolveTitleB dom.title (jsGet (jsGet jobData "JobInformation") "Title")
      (pvGet p (·.title))),
   ("company", resolveCompanyB dom.company (jsGet (jsGet jobData "JobIdentity") "CompanyName")
      (pvGet p (·.company)) (jsGet (jsGet jobPosting "hiringOrganization") "name")),
   ("job_url", .str jobUrl),
   ("job_id", nn (jsGet jobData "JobId") (jsOr (pvGet p (·.jobId)) (jsOr idLd reqJobId))),
   ("reference_number", nn (jsGet (jsGet jobData "BlueXJobData") "ReferenceNumber") idLd),
   ("location", nn locationInfo.location (pvGet p (·.location))),
   ("city", nn locationInfo.city .null),
   ("region", nn locationInfo.region .null),
   ("country", nn locationInfo.country .null),
   ("postal_code", nn locationInfo.postalCode .null),
   ("job_type", nn employmentType (jsGet (jsGet jobData "JobInformation") "JobType")),
   ("employment_type", nn employmentType (jsGet (jsGet jobData "JobInformation") "JobType")),
   ("job_category", nn (jsGet (jsGet jobData "BlueXSanitized") "Specialism")
      (jsOr (pvGet p (·.jobCategory)) (jsGet jobPosting "industry"))),
   ("date_posted", postedDate),
   ("valid_through", nn (jsGet jobPosting "validThrough")
      (jsGet (jsGet jobData "JobDates") "ExpirationDate")),
   ("salary_min", salCombined.minimum),
   ("salary_max", salCombined.maximum),
   ("salary_currency", salCombined.currency),
   ("salary_interval", salCombined.interval),
   ("salary", optToJs (formatSalaryString salCombined (pvSal p (·.text)))),
   ("salary_text", jsOrNull (jsOr salCombined.text (pvSal p (·.text)))),
   ("description_html", descriptionHtml),
   ("description_text", optToJs (htmlToText descriptionHtml)),
   ("requirements", optToJs (htmlToText (jsOr (jsGet (jsGet jobData "JobInformation") "Requirements")
      (jsOr (jsGet jobPosting "qualifications") (jsGet jobPosting "responsibilities"))))),
   ("benefits", optToJs (htmlToText (jsOr (jsGet (jsGet jobData "JobInformation") "Benefits")
      (jsGet jobPosting "jobBenefits")))),
   ("tags", tagsOf jobData jobPosting),
   ("seniority", jsOrNull (jsGet (jsGet jobData "JobInformation") "Seniority")),
   ("work_hours", jsOrNull (jsOr (jsGet (jsGet jobData "JobInformation") "Hours")
      (jsGet jobPosting "workHours"))),
   ("remote_type", jsOrNull (jsGet jobPosting "jobLocationType")),
   ("seo_title", nn (jsGet jobPosting "title") .null),
   ("breadcrumbs", breadcrumbsOf jsonLdAll),
   ("api_source", jobData),
   ("json_ld", jsOrNull jobPosting),
   ("scraped_at", .str now),
   ("data_source", .str (if hasStructuredData then "detail" else "preview_fallback")),
   ("extraction_notes", .str (if hasStructuredData
      then "Combined __ROUTE_DATA__.jobData payload, JSON-LD, and DOM fallbacks."
      else "Fallback to preview data due to missing structured data"))]

/-! ### The crawl controller -/

structure Config where
  resultsWanted : Nat := 100
  maxPages : Nat := 999
  collectDetails : Bool := true
  dedupe : Bool := true
  keyword : String := ""
  location : String := ""
  postedDate : String := "any"

inductive ReqLabel where
  | list : ReqLabel
  | detail : ReqLabel
deriving DecidableEq

/-- One request-queue entry with the userData the handlers read. -/
structure Request where
  url : String
  uniqueKey : String
  label : ReqLabel
  pageNo : Nat := 1
  preview : Option Preview := none
  jobId : JsVal := .null
  backoffAttempt : Nat := 0
  baseOrigin : String := ""
  jobsPath : String := ""

/-- The run's shared mutable state.  `accepted` is a ghost audit trail (not a
field of the source's state object): the previews the listing scans accepted,
in order; it lets the dedup claim speak about which previews descend to
records. -/
structure CrawlState where
  saved : Nat := 0
  seenJobs : List JsVal := []
  seenPages : List String := []
  pendingDetail : List String := []
  queue : List Request := []
  queuedKeys : List String := []
  pushed : List RecordObj := []
  accepted : List Preview := []

/-- `requestQueue.addRequest`: deduplicates on `uniqueKey` across everything
ever enqueued, reporting `wasAlreadyPresent`. -/
def addRequest (s : CrawlState) (r : Request) : CrawlState × Bool :=
  if s.queuedKeys.contains r.uniqueKey then (s, true)
  else ({ s with queue := s.queue ++ [r], queuedKeys := r.uniqueKey :: s.queuedKeys }, false)

def removeStr (l : List String) (x : String) : List String :=
  l.filter (fun y => y != x)

/-- A fetched listing page, abstracted to its parsed route payload and its job
cards. -/
structure ListPageData where
  routeData : JsVal := .null
  domCards : List CardDoc := []

/-- A fetched detail page, abstracted to its parsed route payload, its parsed
JSON-LD payloads and its DOM query results (for both variants' query sets). -/
structure DetailPageData where
  routeData : JsVal := .null
  jsonLdPayloads : List JsVal := []
  docM : DocM := {}
  docB : DocB := {}

/-- The fetch layer: pages by URL (detail pages may differ per backoff
attempt), plus the clock used for `scraped_at`. -/
structure Env where
  listPage : String → ListPageData
  detailPage : String → Nat → DetailPageData
  now : String := "2026-01-01T00:00:00.000Z"

/-- The detail request enqueued for a preview. -/
def dispatchRequest (p : Preview) : Request :=
  { url := p.jobUrl
    uniqueKey := p.jobUrl
    label := .detail
    preview := some p
    jobId := p.jobId
    backoffAttempt := 0
    baseOrigin := getBaseFromUrl p.jobUrl
    jobsPath := getJobsPath p.jobUrl }

/-- One accepted dispatch: mark the url pending and enqueue, rolling back the
pending mark when the queue already knew the url. -/
def dispatchStep (s : CrawlState) (p : Preview) : CrawlState :=
  if (addRequest { s with pendingDetail := p.jobUrl :: s.pendingDetail } (dispatchRequest p)).2 then
    { (addRequest { s with pendingDetail := p.jobUrl :: s.pendingDetail } (dispatchRequest p)).1 with
        pendingDetail := removeStr
          (addRequest { s with pendingDetail := p.jobUrl :: s.pendingDetail } (dispatchRequest p)).1.pendingDetail
          p.jobUrl }
  else (addRequest { s with pendingDetail := p.jobUrl :: s.pendingDetail } (dispatchRequest p)).1

/-- The detail-dispatch loop of the LIST branch: stop when saved plus
in-flight reaches the target, skip urls already pending, otherwise mark
pending and enqueue. -/
def dispatchDetails (cfg : Config) (reqUrl : String) :
    CrawlState → List Preview → CrawlState
  | s, [] => s
  | s, p :: rest =>
      if cfg.resultsWanted ≤ s.saved + s.pendingDetail.length then s
      else if s.pendingDetail.contains p.jobUrl then dispatchDetails cfg reqUrl s rest
      else dispatchDetails cfg reqUrl (dispatchStep s p) rest

def jsTotal (v : JsVal) : Nat :=
  match jsOr v (.num 0) with
  | .num n => n.toNat
  | _ => 0

/-- `hits.length || 30`. -/
def pageSizeOf (hits : List JsVal) : Nat :=
  if hits.length = 0 then 30 else hits.length

/-- `Math.ceil(total / pageSize)` on the source-reported total. -/
def totalPagesOf (routeData : JsVal) (hits : List JsVal) : Nat :=
  (jsTotal (jsGet (jsGet (jsGet routeData "searchResults") "hits") "total")
    + pageSizeOf hits - 1) / pageSizeOf hits

/-- The next-listing-page decision at the end of the LIST branch: no request
when the save target is met, the page ceiling is reached, the reported total
implies no further page, or the computed URL was already visited. -/
def nextListUrl (cfg : Config) (req : Request) : String :=
  buildSearchUrl cfg.keyword cfg.location cfg.postedDate (req.pageNo + 1)
    (if req.baseOrigin = "" then getBaseFromUrl req.url else req.baseOrigin)
    (if req.jobsPath = "" then getJobsPath req.url else req.jobsPath)

def nextListRequest (cfg : Config) (req : Request) (s : CrawlState)
    (routeData : JsVal) (hits : List JsVal) : Option Request :=
  if cfg.resultsWanted ≤ s.saved ∨ cfg.maxPages ≤ req.pageNo then none
  else if cfg.maxPages < req.pageNo + 1 ∨ totalPagesOf routeData hits < req.pageNo + 1 then none
  else if s.seenPages.contains (nextListUrl cfg req) then none
  else some
    { url := nextListUrl cfg req
      uniqueKey := nextListUrl cfg req
      label := .list
      pageNo := req.pageNo + 1
      baseOrigin := req.baseOrigin
      jobsPath := req.jobsPath }

/-- Persisting previews directly (collectDetails off, truncated to remaining
capacity) or dispatching detail requests (collectDetails on). -/
def persistPhase (cfg : Config) (env : Env) (reqUrl : String)
    (previews : List Preview) (s : CrawlState) : CrawlState :=
  if !cfg.collectDetails then
    if s.saved < cfg.resultsWanted then
      { s with
        pushed := s.pushed ++ (previews.take (cfg.resultsWanted - s.saved)).map
          (fun p => sanitizeForDataset (listRecord env.now p))
        saved := s.saved + ((previews.take (cfg.resultsWanted - s.saved)).map
          (fun p => sanitizeForDataset (listRecord env.now p))).length }
    else s
  else dispatchDetails cfg reqUrl s previews

def nextPagePhase (cfg : Config) (req : Request) (routeData : JsVal)
    (hits : List JsVal) (s : CrawlState) : CrawlState :=
  match nextListRequest cfg req s routeData hits with
  | none => s
  | some nreq => (addRequest { s with seenPages := nreq.url :: s.seenPages } nreq).1

/-- `routeData?.searchResults?.hits?.hits || []` of the LIST branch. -/
def listHits (routeData : JsVal) : List JsVal :=
  jsArrToList (jsOr (jsGet (jsGet (jsGet routeData "searchResults") "hits") "hits") .arrNil)

/-- The preview scan of the LIST branch: the route-payload hits, the DOM
fallback scan running only when the route payload produced no previews. -/
def scannedPreviews (cfg : Config) (env : Env) (req : Request) (s : CrawlState) :
    List Preview × List JsVal :=
  if (scanHits cfg.dedupe req.baseOrigin req.url (listHits (env.listPage req.url).routeData)
      [] s.seenJobs).1.isEmpty then
    scanDomJobs cfg.dedupe (parseDomFallbackList (env.listPage req.url).domCards req.url)
      (scanHits cfg.dedupe req.baseOrigin req.url (listHits (env.listPage req.url).routeData)
        [] s.seenJobs).1
      (scanHits cfg.dedupe req.baseOrigin req.url (listHits (env.listPage req.url).routeData)
        [] s.seenJobs).2
  else
    scanHits cfg.dedupe req.baseOrigin req.url (listHits (env.listPage req.url).routeData)
      [] s.seenJobs

/-- The LIST branch of the request handler. -/
def handleList (cfg : Config) (env : Env) (req : Request) (s : CrawlState) : CrawlState :=
  nextPagePhase cfg req (env.listPage req.url).routeData
    (listHits (env.listPage req.url).routeData)
    (persistPhase cfg env req.url (scannedPreviews cfg env req s).1
      { s with
        seenJobs := (scannedPreviews cfg env req s).2
        accepted := s.accepted ++ (scannedPreviews cfg env req s).1 })

/-- Outcome of one DETAIL handler invocation of src/main.js. -/
inductive DetailResultM where
  | skipLate : DetailResultM
  | retry : Request → DetailResultM
  | dropNoData : DetailResultM
  | persist : RecordObj → DetailResultM

/-- The `combinedSalary` object literal of the src/main.js DETAIL branch:
payload salary, else JSON-LD salary, else preview salary, per component. -/
def combinedSalaryM (salJD salLD : SalaryJs) (p : Option Preview) : SalaryJs :=
  { minimum := nn salJD.minimum (nn salLD.minimum (pvSal p (·.minimum)))
    maximum := nn salJD.maximum (nn salLD.maximum (pvSal p (·.maximum)))
    currency := nn salJD.currency (nn salLD.currency (pvSal p (·.currency)))
    interval := nn salJD.interval (nn salLD.interval (pvSal p (·.interval)))
    text := nn salJD.text (nn salLD.text (pvSal p (·.text))) }

/-- The DETAIL branch of src/main.js as a decision function.  The `.error`
case is the uncaught TypeError thrown by `extractSalary(null)` when the route
payload is missing but a JSON-LD JobPosting let execution proceed.  The retry
uniqueKey models the fresh `${jobUrl}#${Date.now()}` key. -/
def detailDecisionM (cfg : Config) (saved : Nat) (req : Request)
    (page : DetailPageData) (now : String) : Except Unit DetailResultM :=
  if cfg.resultsWanted ≤ saved then .ok .skipLate
  else if ¬ jsTruthy (routeJobData page.routeData)
      ∧ ¬ jsTruthy (jsOrNull (extractJsonLd page.jsonLdPayloads).jobPosting) then
    if req.backoffAttempt < 3 then
      .ok (.retry { req with
        uniqueKey := req.url ++ "#t" ++ toString (req.backoffAttempt + 1),
        backoffAttempt := req.backoffAttempt + 1 })
    else .ok .dropNoData
  else
    match extractSalary (routeJobData page.routeData) with
    | .error e => .error e
    | .ok salJD =>
        .ok (.persist (sanitizeForDataset (detailRecordM now req.url
          (routeJobData page.routeData)
          (jsOrNull (extractJsonLd page.jsonLdPayloads).jobPosting)
          (extractJsonLd page.jsonLdPayloads).all
          (parseDomFallbackDetailM page.docM) req.preview req.jobId
          (combinedSalaryM salJD
            (extractSalaryFromJobPosting (jsOrNull (extractJsonLd page.jsonLdPayloads).jobPosting))
            req.preview))))

/-- Outcome of one DETAIL handler invocation of variant B. -/
inductive DetailResultB where
  | skipLate : DetailResultB
  | retry : Request → DetailResultB
  | dropNoData : DetailResultB
  | dropBadRecord : DetailResultB
  | persist : RecordObj → DetailResultB

/-- Variant B's `combinedSalary`: the DOM salary object comes first, then
payload, JSON-LD and preview, per component. -/
def combinedSalaryB (salDom : JsVal) (salJD salLD : SalaryJs) (p : Option Preview) : SalaryJs :=
  { minimum := nn (jsGet salDom "minimum") (nn salJD.minimum (nn salLD.minimum (pvSal p (·.minimum))))
    maximum := nn (jsGet salDom "maximum") (nn salJD.maximum (nn salLD.maximum (pvSal p (·.maximum))))
    currency := nn (jsGet salDom "currency") (nn salJD.currency (nn salLD.currency (pvSal p (·.currency))))
    interval := nn (jsGet salDom "interval") (nn salJD.interval (nn salLD.interval (pvSal p (·.interval))))
    text := nn (jsGet salDom "text") (nn salJD.text (nn salLD.text (pvSal p (·.text)))) }

/-- `hasStructuredData` of the variant-B DETAIL branch. -/
def hasStructuredB (page : DetailPageData) : Bool :=
  jsTruthy (routeJobData page.routeData)
    || jsTruthy (jsOrNull (extractJsonLd page.jsonLdPayloads).jobPosting)

/-- `hasDomData` of the variant-B DETAIL branch. -/
def hasDomB (page : DetailPageData) : Bool :=
  jsTruthy (parseDomFallbackDetailB page.docB).title
    && jsTruthy (parseDomFallbackDetailB page.docB).descriptionHtml

/-- The sanitized reconciled record of the variant-B DETAIL branch. -/
def detailSanitizedB (now : String) (req : Request) (page : DetailPageData)
    (salJD : SalaryJs) : RecordObj :=
  sanitizeForDataset (detailRecordB now req.url
    (routeJobData page.routeData)
    (jsOrNull (extractJsonLd page.jsonLdPayloads).jobPosting)
    (extractJsonLd page.jsonLdPayloads).all
    (parseDomFallbackDetailB page.docB) req.preview req.jobId
    (combinedSalaryB (jsOr (parseDomFallbackDetailB page.docB).salary .objNil) salJD
      (extractSalaryFromJobPosting (jsOrNull (extractJsonLd page.jsonLdPayloads).jobPosting))
      req.preview)
    (hasStructuredB page))

/-- The DETAIL branch of variant B as a decision function: retry ceiling 2,
forced acceptance with `preview_fallback` provenance afterwards, and the
required-field check on the sanitized record before pushing.  As in
src/main.js, `extractSalary(jobData)` throws when the route payload is
missing (`.error`), which is reached by every forced-acceptance path. -/
def detailDecisionB (cfg : Config) (saved : Nat) (req : Request)
    (page : DetailPageData) (now : String) : Except Unit DetailResultB :=
  if cfg.resultsWanted ≤ saved then .ok .skipLate
  else if ¬ hasStructuredB page ∧ ¬ hasDomB page ∧ req.backoffAttempt < 2 then
    .ok (.retry { req with
      uniqueKey := req.url ++ "#retry" ++ toString (req.backoffAttempt + 1),
      backoffAttempt := req.backoffAttempt + 1 })
  else if ¬ hasStructuredB page ∧ ¬ hasDomB page ∧ req.preview.isNone then
    .ok .dropNoData
  else
    match extractSalary (routeJobData page.routeData) with
    | .error e => .error e
    | .ok salJD =>
        if (getField (detailSanitizedB now req page salJD) "title").isNone
            ∨ (getField (detailSanitizedB now req page salJD) "job_url").isNone then
          .ok .dropBadRecord
        else .ok (.persist (detailSanitizedB now req page salJD))

/-- Applies one src/main.js DETAIL handler invocation to the state.  On the
uncaught TypeError the crawler-level retries refetch the same page and hit
the same deterministic throw, after which `failedRequestHandler` clears the
pending entry; those crawler retries are collapsed into the error case. -/
def applyDetail (cfg : Config) (env : Env) (req : Request) (s : CrawlState) : CrawlState :=
  match detailDecisionM cfg s.saved req (env.detailPage req.url req.backoffAttempt) env.now with
  | .ok .skipLate => { s with pendingDetail := removeStr s.pendingDetail req.url }
  | .ok (.retry r) => (addRequest { s with pendingDetail := removeStr s.pendingDetail req.url } r).1
  | .ok .dropNoData => { s with pendingDetail := removeStr s.pendingDetail req.url }
  | .ok (.persist rec) =>
      { s with
        pushed := s.pushed ++ [rec]
        saved := s.saved + 1
        pendingDetail := removeStr s.pendingDetail req.url }
  | .error _ => { s with pendingDetail := removeStr s.pendingDetail req.url }

/-- One handler invocation on a dequeued request. -/
def stepReq (cfg : Config) (env : Env) (s : CrawlState) (req : Request) : CrawlState :=
  match req.label with
  | .list => handleList cfg env req s
  | .detail => applyDetail cfg env req s

/-- One scheduling step: some queued request is taken and its handler runs to
completion.  Handler invocations are serialized (single-writer state), per
the concurrency contract of the specification. -/
def StepRel (cfg : Config) (env : Env) (s t : CrawlState) : Prop :=
  ∃ pre req post, s.queue = pre ++ req :: post ∧
    t = stepReq cfg env { s with queue := pre ++ post } req

inductive ReachableFrom (cfg : Config) (env : Env) : CrawlState → CrawlState → Prop where
  | refl (s : CrawlState) : ReachableFrom cfg env s s
  | step {s t u : CrawlState} : ReachableFrom cfg env s t → StepRel cfg env t u →
      ReachableFrom cfg env s u

/-- The deterministic first-in-first-out schedule (used for concrete runs). -/
def stepFifo (cfg : Config) (env : Env) (s : CrawlState) : CrawlState :=
  match s.queue with
  | [] => s
  | req :: rest => stepReq cfg env { s with queue := rest } req

def runFifo (cfg : Config) (env : Env) : Nat → CrawlState → CrawlState
  | 0, s => s
  | n + 1, s => runFifo cfg env n (stepFifo cfg env s)

/-- Start-up per initial URL: URLs already containing `/jobs/` are used as
given, anything else is replaced by a built search URL. -/
def initRequest (cfg : Config) (initialUrl : String) : Request :=
  let baseOrigin := getBaseFromUrl initialUrl
  let jobsPath := getJobsPath initialUrl
  let urlToUse := if (findSub initialUrl.data "/jobs/".data).isSome then initialUrl
    else buildSearchUrl cfg.keyword cfg.location cfg.postedDate 1 baseOrigin jobsPath
  { url := urlToUse, uniqueKey := urlToUse, label := .list, pageNo := 1,
    baseOrigin := baseOrigin, jobsPath := jobsPath }

def initState (cfg : Config) (urls : List String) : CrawlState :=
  urls.foldl (fun s u => (addRequest s (initRequest cfg u)).1) {}

/-- The per-field result of the `sanitizeForDataset` loop, as a function of
the field's previous value: absent stays absent, null is removed, a sanitizer
result of null or the empty string is removed, anything else is stored as a
string. -/
def sanStepApply : Option String → Option JsVal
  | none => none
  | some s => if s = "" then none else some (.str s)

def sanStep (k : SanKind) : Option JsVal → Option JsVal
  | none => none
  | some .null => none
  | some v => sanStepApply (applySanitizer k v)

/-! ### Outcome projections used by the scenario theorems -/

def persistedRecordM : Except Unit DetailResultM → Option RecordObj
  | .ok (.persist rec) => some rec
  | _ => none

def persistedRecordB : Except Unit DetailResultB → Option RecordObj
  | .ok (.persist rec) => some rec
  | _ => none

def isRetryB : Except Unit DetailResultB → Bool
  | .ok (.retry _) => true
  | _ => false

/-! ### Concrete pages and runs used by the scenario theorems

`exEnv` models the pagination scenario of the specification: every listing
page reports five hits and a total of 15 results; every detail page carries a
route payload.  `cexEnv` models a listing page whose single hit has no title
and a whitespace-only city. -/

def exJobUrl (i : Nat) : String := "https://r.co/jobs/j_" ++ toString i ++ "/"

def exHit (i : Nat) : JsVal :=
  jobj [("_id", .str ("id" ++ toString i)),
        ("_source", jobj [
          ("BlueXJobData", jobj [("JobUrl", .str (exJobUrl i)),
                                 ("JobId", .str ("j" ++ toString i))]),
          ("JobInformation", jobj [("Title", .str ("T" ++ toString i))])])]

def exListPage (lo : Nat) : ListPageData :=
  { routeData := jobj [("searchResults", jobj [("hits", jobj [
      ("hits", jarr ((List.range 5).map (fun k => exHit (lo + k)))),
      ("total", .num 15)])])] }

def exPage1 : String := "https://r.co/jobs/"

def exPage2 : String := buildSearchUrl "" "" "any" 2 "https://r.co" "/jobs/"

def exPage3 : String := buildSearchUrl "" "" "any" 3 "https://r.co" "/jobs/"

def exDetailPage : DetailPageData :=
  { routeData := jobj [("jobData", jobj [("hits", jobj [("hits", jarr [
      jobj [("_source", jobj [("JobInformation",
        jobj [("Title", .str "DT"), ("Description", .str "<p>Desc</p>")])])]])])])] }

def exEnv : Env :=
  { listPage := fun url =>
      if url = exPage1 then exListPage 1
      else if url = exPage2 then exListPage 6
      else if url = exPage3 then exListPage 11
      else {}
    detailPage := fun _ _ => exDetailPage }

def exCfgDetail : Config := { resultsWanted := 10, maxPages := 3 }

def exCfgList : Config := { resultsWanted := 10, maxPages := 3, collectDetails := false }

def exRunDetail (n : Nat) : CrawlState := runFifo exCfgDetail exEnv n (initState exCfgDetail [exPage1])

def exRunList (n : Nat) : CrawlState := runFifo exCfgList exEnv n (initState exCfgList [exPage1])

def cexHit : JsVal :=
  jobj [("_id", .str "71"),
        ("_source", jobj [
          ("BlueXJobData", jobj [("JobUrl", .str "https://r.co/jobs/x_71/")]),
          ("JobLocation", jobj [("City", .str " ")])])]

def cexEnv : Env :=
  { listPage := fun _ =>
      { routeData := jobj [("searchResults", jobj [("hits", jobj [
          ("hits", jarr [cexHit]), ("total", .num 1)])])] }
    detailPage := fun _ _ => {} }

def cexCfg : Config := { resultsWanted := 5, maxPages := 1, collectDetails := false }

def cexRun : CrawlState := runFifo cexCfg cexEnv 1 (initState cexCfg [exPage1])

def cexRecord : RecordObj := cexRun.pushed.headD []

/-! Inputs for the reconciliation-order scenario (variant B): the route
payload is present but has no title or company, the JSON-LD JobPosting
carries both, and the carried preview carries both. -/

def c7Preview : Preview :=
  { jobUrl := "https://r.co/jobs/p_9/", title := .str "Preview Title",
    company := .str "Preview Co" }

def c7Page : DetailPageData :=
  { routeData := jobj [("jobData", jobj [("hits", jobj [("hits", jarr [
      jobj [("_source", jobj [("JobId", .str "9")])]])])])]
    jsonLdPayloads := [jobj [("@type", .str "JobPosting"),
      ("title", .str "LD Title"),
      ("hiringOrganization", jobj [("name", .str "LD Corp")])]] }

def c7Req : Request :=
  { url := "https://r.co/jobs/p_9/", uniqueKey := "https://r.co/jobs/p_9/",
    label := .detail, preview := some c7Preview }

/-! Inputs for the forced-acceptance scenario (variant B): no route payload,
no JSON-LD, an empty document, a carried preview, at the retry ceiling. -/

def c1Preview : Preview :=
  { jobUrl := "https://r.co/jobs/q_3/", title := .str "Carried Title" }

def c1Req (attempt : Nat) : Request :=
  { url := "https://r.co/jobs/q_3/", uniqueKey := "https://r.co/jobs/q_3/",
    label := .detail, preview := some c1Preview, backoffAttempt := attempt }

/-! ### Brace-depth measure and shared helper requests for the theorems -/

/-- Modelled from the spec: the per-character brace increment, counting every
brace character of the text (the specification asks that braces inside quoted
strings be skipped; the scanner counts them all, which the C4 theorems
contrast). -/
def braceDelta (c : Char) : Int :=
  if c = lbrace then 1 else if c = rbrace then -1 else 0

/-- Modelled from the spec: the overall brace depth of a text. -/
def braceDepth (l : List Char) : Int := (l.map braceDelta).sum

/-- Modelled from the spec: a balanced brace region — it starts with an
opening brace, every proper prefix is still open, and the whole region
closes. -/
def wellBraced (u : List Char) : Prop :=
  u.head? = some lbrace ∧ braceDepth u = 0 ∧
    ∀ k, k < u.length → 0 < k → 0 < braceDepth (u.take k)

instance instDecidableWellBraced (u : List Char) : Decidable (wellBraced u) :=
  decidable_of_iff (u.head? = some lbrace ∧ braceDepth u = 0 ∧
    ∀ k, k < u.length → 0 < k → 0 < braceDepth (u.take k)) Iff.rfl

/-- A bare detail request for a URL (no carried preview). -/
def detailReqAt (u : String) : Request :=
  { url := u, uniqueKey := u, label := .detail }

/-- A bare listing request for a URL at a page number. -/
def listReqAt (u : String) (n : Nat) : Request :=
  { url := u, uniqueKey := u, label := .list, pageNo := n }

/-- The state after the first FIFO scheduling step from a single-URL start:
the initial request is dequeued and handled. -/
def fifoReach1 (cfg : Config) (env : Env) (u : String) : CrawlState :=
  stepReq cfg env { initState cfg [u] with queue := [] } (initRequest cfg u)

/-! ### The dedup invariant (claim C3) -/

/-- Two records carry no common `job_url` string value. -/
def UrlDistinct (r1 r2 : RecordObj) : Prop :=
  ∀ u, getField r1 "job_url" = some (JsVal.str u) → getField r2 "job_url" ≠ some (JsVal.str u)

/-- A truthy job id is not shared between two previews. -/
def IdDistinct (p q : Preview) : Prop :=
  jsTruthy p.jobId = true → jsEqb p.jobId q.jobId = false

/-- The queued detail requests for a URL. -/
def liveCount (s : CrawlState) (u : String) : Nat :=
  s.queue.countP (fun r => decide (r.label = ReqLabel.detail ∧ r.url = u))

/-- The pushed records carrying a URL. -/
def pushedCount (s : CrawlState) (u : String) : Nat :=
  s.pushed.countP (fun rec => decide (getField rec "job_url" = some (JsVal.str u)))

/-- Seen-set extension, up to the JS equality the seen-set is probed with. -/
def SeenSub (a b : List JsVal) : Prop :=
  ∀ v, seenAny a v = true → seenAny b v = true

/-- The run invariant behind the dedup claim: pushed records have pairwise
distinct urls, each backed by the seen-set; queued detail requests are backed
by the seen-set; in detail mode each URL has at most one pushed record or
live detail request, guarded by the request-queue key set; in list mode no
detail request is ever live; and the accepted previews carry pairwise
distinct truthy job ids, backed by the seen-set. -/
structure DedupInv (cfg : Config) (s : CrawlState) : Prop where
  pushedUrls : List.Pairwise UrlDistinct s.pushed
  pushedSeen : ∀ rec ∈ s.pushed, ∀ u, getField rec "job_url" = some (JsVal.str u) →
    seenAny s.seenJobs (JsVal.str u) = true
  queueSeen : ∀ r ∈ s.queue, r.label = ReqLabel.detail →
    seenAny s.seenJobs (JsVal.str r.url) = true
  capOne : cfg.collectDetails = true → ∀ u, pushedCount s u + liveCount s u ≤ 1
  keyGuard : cfg.collectDetails = true → ∀ u, 1 ≤ pushedCount s u + liveCount s u →
    s.queuedKeys.contains u = true
  listNoLive : cfg.collectDetails = false → ∀ u, liveCount s u = 0
  acceptedIds : List.Pairwise IdDistinct s.accepted
  acceptedSeen : ∀ p ∈ s.accepted, jsEqb p.jobId p.jobId = true → jsTruthy p.jobId = true →
    seenAny s.seenJobs p.jobId = true

/-- What the scan guarantees for each newly accepted preview: its url (and
truthy scalar id) were unseen before the scan and are in the seen-set after
it. -/
def ScanOut (seen0 seenF : List JsVal) (p : Preview) : Prop :=
  seenAny seen0 (JsVal.str p.jobUrl) = false
  ∧ (jsTruthy p.jobId = true → seenAny seen0 p.jobId = false)
  ∧ seenAny seenF (JsVal.str p.jobUrl) = true
  ∧ (jsEqb p.jobId p.jobId = true → jsTruthy p.jobId = true → seenAny seenF p.jobId = true)

/-- Pairwise relation delivered by the scans: distinct truthy ids and
distinct urls. -/
def ScanRel (p q : Preview) : Prop :=
  IdDistinct p q ∧ p.jobUrl ≠ q.jobUrl

/-! ## Lemmas about whitespace collapsing -/

theorem runsAux_mem (keep : Char → Bool) :
    ∀ (l acc : List Char), (∀ c ∈ acc, keep c = true) →
      ∀ t ∈ runsAux keep l acc, t ≠ [] ∧ ∀ c ∈ t, keep c = true := by
  intro l
  induction l with
  | nil =>
      intro acc hacc t ht
      by_cases h : acc.isEmpty
      · simp [runsAux, h] at ht
      · simp only [runsAux, h, Bool.false_eq_true, if_false, List.mem_singleton] at ht
        subst ht
        refine ⟨?_, fun c hc => hacc c (List.mem_reverse.mp hc)⟩
        simp only [ne_eq, List.reverse_eq_nil_iff]
        simpa [List.isEmpty_iff] using h
  | cons c cs ih =>
      intro acc hacc t ht
      simp only [runsAux] at ht
      by_cases hk : keep c
      · rw [if_pos hk] at ht
        refine ih (c :: acc) ?_ t ht
        intro x hx
        rcases List.mem_cons.mp hx with h | h
        · exact h ▸ hk
        · exact hacc x h
      · rw [if_neg hk] at ht
        by_cases he : acc.isEmpty
        · rw [if_pos he] at ht
          exact ih [] (by simp) t ht
        · rw [if_neg he] at ht
          rcases List.mem_cons.mp ht with h | h
          · subst h
            refine ⟨?_, fun x hx => hacc x (List.mem_reverse.mp hx)⟩
            simp only [ne_eq, List.reverse_eq_nil_iff]
            simpa [List.isEmpty_iff] using he
          · exact ih [] (by simp) t h

theorem wsTokens_mem (l : List Char) :
    ∀ t ∈ wsTokens l, t ≠ [] ∧ ∀ c ∈ t, isWsChar c = false := by
  intro t ht
  have h := runsAux_mem (fun c => !isWsChar c) l [] (by simp) t ht
  exact ⟨h.1, fun c hc => by simpa using h.2 c hc⟩

theorem runsAux_append_run (keep : Char → Bool) :
    ∀ (t l acc : List Char), (∀ c ∈ t, keep c = true) →
      runsAux keep (t ++ l) acc = runsAux keep l (t.reverse ++ acc) := by
  intro t
  induction t with
  | nil => intro l acc _; simp
  | cons c t ih =>
      intro l acc ht
      have hkc : keep c = true := ht c (List.mem_cons_self c t)
      rw [List.cons_append]
      show runsAux keep (c :: (t ++ l)) acc = _
      simp only [runsAux]
      rw [if_pos hkc]
      rw [ih l (c :: acc) (fun x hx => ht x (List.mem_cons_of_mem c hx))]
      simp

theorem wsTokens_join : ∀ ts : List (List Char),
    (∀ t ∈ ts, t ≠ [] ∧ ∀ c ∈ t, isWsChar c = false) →
    wsTokens (joinTokens ts) = ts := by
  intro ts
  induction ts with
  | nil => intro _; simp [joinTokens, wsTokens, runsAux]
  | cons t ts ih =>
      intro h
      have ht := h t (List.mem_cons_self t ts)
      have hkeep : ∀ c ∈ t, (fun c => !isWsChar c) c = true := by
        intro c hc; simpa using ht.2 c hc
      match ts with
      | [] =>
          show wsTokens (joinTokens [t]) = [t]
          have hjoin : joinTokens [t] = t := rfl
          rw [hjoin]
          unfold wsTokens
          have hrw := runsAux_append_run (fun c => !isWsChar c) t [] [] hkeep
          rw [List.append_nil] at hrw
          rw [hrw]
          simp [runsAux, List.isEmpty_iff, ht.1]
      | t' :: ts' =>
          show wsTokens (joinTokens (t :: t' :: ts')) = t :: t' :: ts'
          have hjoin : joinTokens (t :: t' :: ts') = t ++ ' ' :: joinTokens (t' :: ts') := rfl
          rw [hjoin]
          unfold wsTokens
          rw [runsAux_append_run (fun c => !isWsChar c) t (' ' :: joinTokens (t' :: ts')) [] hkeep]
          have hsp : ((fun c => !isWsChar c) ' ') = false := by
            simp [isWsChar]
          have hne : (t.reverse ++ ([] : List Char)).isEmpty = false := by
            simp [List.isEmpty_iff, ht.1]
          simp only [runsAux, hsp, Bool.false_eq_true, if_false, hne]
          have hrev : (t.reverse ++ ([] : List Char)).reverse = t := by simp
          rw [hrev]
          have hrest := ih (fun x hx => h x (List.mem_cons_of_mem t hx))
          unfold wsTokens at hrest
          rw [hrest]

theorem collapseWsL_idem (l : List Char) : collapseWsL (collapseWsL l) = collapseWsL l := by
  unfold collapseWsL
  rw [wsTokens_join (wsTokens l) (wsTokens_mem l)]

theorem collapseWs_idem (s : String) : collapseWs (collapseWs s) = collapseWs s := by
  unfold collapseWs
  exact congrArg String.mk (collapseWsL_idem s.data)

theorem collapseWsL_has_nonws (l : List Char) (h : collapseWsL l ≠ []) :
    ∃ c ∈ collapseWsL l, isWsChar c = false := by
  unfold collapseWsL at *
  rcases hts : wsTokens l with _ | ⟨t, ts⟩
  · rw [hts] at h; simp [joinTokens] at h
  · have ht := wsTokens_mem l t (by rw [hts]; exact List.mem_cons_self t ts)
    obtain ⟨c, t', rfl⟩ : ∃ c t', t = c :: t' := by
      rcases t with _ | ⟨c, t'⟩
      · exact absurd rfl ht.1
      · exact ⟨c, t', rfl⟩
    refine ⟨c, ?_, ht.2 c (List.mem_cons_self c t')⟩
    rcases ts with _ | ⟨t'', ts'⟩
    · simp [joinTokens]
    · simp [joinTokens]

/-! ## Lemmas about `normalizeWhitespace` and `htmlToText` -/

theorem normalizeWhitespace_eq_some (v : JsVal) (t : String)
    (h : normalizeWhitespace v = some t) :
    t = collapseWs (jsToString v) ∧ t ≠ "" := by
  simp only [normalizeWhitespace] at h
  by_cases hf : jsFalsy v
  · rw [if_pos hf] at h; exact absurd h (by simp)
  · rw [if_neg hf] at h
    by_cases he : collapseWs (jsToString v) = ""
    · rw [if_pos he] at h; exact absurd h (by simp)
    · rw [if_neg he] at h
      have := Option.some.inj h
      exact ⟨this.symm, this ▸ he⟩

theorem normalizeWhitespace_fixpoint (v : JsVal) (t : String)
    (h : normalizeWhitespace v = some t) :
    normalizeWhitespace (.str t) = some t := by
  obtain ⟨ht, hne⟩ := normalizeWhitespace_eq_some v t h
  have hf : jsFalsy (JsVal.str t) = false := by simp [jsFalsy, hne]
  have hcc : collapseWs (jsToString (JsVal.str t)) = t := by
    show collapseWs t = t
    rw [ht, collapseWs_idem]
  simp only [normalizeWhitespace, hf, Bool.false_eq_true, if_false, hcc]
  rw [if_neg hne]

theorem stringMk_ne_empty {l : List Char} (h : l ≠ []) : String.mk l ≠ "" := by
  intro hc
  exact h (congrArg String.data hc)

theorem normalizeWhitespace_not_ws_only (v : JsVal) (t : String)
    (h : normalizeWhitespace v = some t) :
    ∃ c ∈ t.data, isWsChar c = false := by
  obtain ⟨ht, hne⟩ := normalizeWhitespace_eq_some v t h
  have hdata : t.data = collapseWsL (jsToString v).data := by rw [ht]; rfl
  have hnil : collapseWsL (jsToString v).data ≠ [] := by
    intro hcon
    apply hne
    rw [ht]
    show String.mk (collapseWsL (jsToString v).data) = ""
    rw [hcon]
  rw [hdata]
  exact collapseWsL_has_nonws _ hnil

theorem htmlToText_fixpoint (h : JsVal) (t : String)
    (hh : htmlToText h = some t) :
    normalizeWhitespace (.str t) = some t := by
  simp only [htmlToText] at hh
  by_cases hf : jsFalsy h
  · rw [if_pos hf] at hh; exact absurd hh (by simp)
  · rw [if_neg hf] at hh
    exact normalizeWhitespace_fixpoint _ t hh

/-! ## Lemmas about record fields and `sanitizeForDataset` -/

theorem getField_delField_same (r : RecordObj) (f : String) :
    getField (delField r f) f = none := by
  induction r with
  | nil => rfl
  | cons p r ih =>
      obtain ⟨k, w⟩ := p
      by_cases h : k = f
      · show getField (if k = f then delField r f else (k, w) :: delField r f) f = none
        rw [if_pos h]
        exact ih
      · show getField (if k = f then delField r f else (k, w) :: delField r f) f = none
        rw [if_neg h]
        show (if k = f then some w else getField (delField r f) f) = none
        rw [if_neg h]
        exact ih

theorem getField_delField_other (r : RecordObj) (f g : String) (h : g ≠ f) :
    getField (delField r f) g = getField r g := by
  induction r with
  | nil => rfl
  | cons p r ih =>
      obtain ⟨k, w⟩ := p
      show getField (if k = f then delField r f else (k, w) :: delField r f) g
          = (if k = g then some w else getField r g)
      by_cases hk : k = f
      · rw [if_pos hk]
        have hkg : ¬ (k = g) := fun hc => h (hc ▸ hk)
        rw [if_neg hkg]
        exact ih
      · rw [if_neg hk]
        show (if k = g then some w else getField (delField r f) g)
            = (if k = g then some w else getField r g)
        by_cases hg : k = g
        · rw [if_pos hg, if_pos hg]
        · rw [if_neg hg, if_neg hg]
          exact ih

theorem getField_setField_same (r : RecordObj) (f : String) (v : JsVal) :
    getField (setField r f v) f = (getField r f).map (fun _ => v) := by
  induction r with
  | nil => rfl
  | cons p r ih =>
      obtain ⟨k, w⟩ := p
      show getField ((if k = f then (k, v) else (k, w)) :: setField r f v) f
          = ((if k = f then some w else getField r f).map (fun _ => v))
      by_cases hk : k = f
      · rw [if_pos hk, if_pos hk]
        show (if k = f then some v else getField (setField r f v) f) = some v
        rw [if_pos hk]
      · rw [if_neg hk, if_neg hk]
        show (if k = f then some w else getField (setField r f v) f)
            = (getField r f).map (fun _ => v)
        rw [if_neg hk]
        exact ih

theorem getField_setField_other (r : RecordObj) (f : String) (v : JsVal) (g : String)
    (h : g ≠ f) :
    getField (setField r f v) g = getField r g := by
  induction r with
  | nil => rfl
  | cons p r ih =>
      obtain ⟨k, w⟩ := p
      show getField ((if k = f then (k, v) else (k, w)) :: setField r f v) g
          = (if k = g then some w else getField r g)
      by_cases hk : k = f
      · rw [if_pos hk]
        have hkg : ¬ (k = g) := fun hc => h (hc ▸ hk)
        show (if k = g then some v else getField (setField r f v) g)
            = (if k = g then some w else getField r g)
        rw [if_neg hkg, if_neg hkg]
        exact ih
      · rw [if_neg hk]
        show (if k = g then some w else getField (setField r f v) g)
            = (if k = g then some w else getField r g)
        by_cases hg : k = g
        · rw [if_pos hg, if_pos hg]
        · rw [if_neg hg, if_neg hg]
          exact ih

theorem getField_sanitizeApply_same (out : RecordObj) (f : String) (o : Option String)
    (v0 : JsVal) (hp : getField out f = some v0) :
    getField (sanitizeApply out f o) f = sanStepApply o := by
  rcases o with _ | s
  · simp [sanitizeApply, sanStepApply, getField_delField_same]
  · by_cases he : s = ""
    · simp [sanitizeApply, sanStepApply, he, getField_delField_same]
    · simp only [sanitizeApply, sanStepApply, he, if_false]
      rw [getField_setField_same, hp]
      rfl

theorem getField_sanitizeApply_other (out : RecordObj) (f : String) (o : Option String)
    (g : String) (h : g ≠ f) :
    getField (sanitizeApply out f o) g = getField out g := by
  rcases o with _ | s
  · exact getField_delField_other out f g h
  · by_cases he : s = ""
    · simp only [sanitizeApply, he, if_pos rfl]
      exact getField_delField_other out f g h
    · simp only [sanitizeApply, he, if_false]
      exact getField_setField_other out f _ g h

theorem sanitizeField_same (r : RecordObj) (f : String) (k : SanKind) :
    getField (sanitizeField r f k) f = sanStep k (getField r f) := by
  rcases h : getField r f with _ | v
  · simp [sanitizeField, sanStep, h]
  · rcases v with _ | s | n | _ | ⟨hd, tl⟩ | _ | ⟨ky, vl, rs⟩ <;>
      simp only [sanitizeField, sanStep, h] <;>
      first
        | exact getField_delField_same r f
        | exact getField_sanitizeApply_same _ _ _ _ h

theorem sanitizeField_other (r : RecordObj) (f : String) (k : SanKind) (g : String)
    (h : g ≠ f) :
    getField (sanitizeField r f k) g = getField r g := by
  rcases hv : getField r f with _ | v
  · simp [sanitizeField, hv]
  · rcases v with _ | s | n | _ | ⟨hd, tl⟩ | _ | ⟨ky, vl, rs⟩ <;>
      simp only [sanitizeField, hv] <;>
      first
        | exact getField_delField_other r f g h
        | exact getField_sanitizeApply_other _ _ _ _ h

theorem sanitize_foldl_other :
    ∀ (L : List (String × SanKind)) (r : RecordObj) (g : String),
      (∀ p ∈ L, g ≠ p.1) →
      getField (L.foldl (fun out p => sanitizeField out p.1 p.2) r) g = getField r g := by
  intro L
  induction L with
  | nil => intro r g _; rfl
  | cons q L ih =>
      intro r g hg
      show getField (L.foldl _ (sanitizeField r q.1 q.2)) g = _
      rw [ih (sanitizeField r q.1 q.2) g (fun p hp => hg p (List.mem_cons_of_mem q hp))]
      exact sanitizeField_other r q.1 q.2 g (hg q (List.mem_cons_self q L))

theorem sanitize_foldl_mem :
    ∀ (L : List (String × SanKind)) (r : RecordObj) (f : String) (k : SanKind),
      (L.map Prod.fst).Nodup → (f, k) ∈ L →
      getField (L.foldl (fun out p => sanitizeField out p.1 p.2) r) f
        = sanStep k (getField r f) := by
  intro L
  induction L with
  | nil => intro r f k _ hm; cases hm
  | cons q L ih =>
      intro r f k hnd hm
      rw [show List.map Prod.fst (q :: L) = q.1 :: List.map Prod.fst L from rfl] at hnd
      have hnd' := List.nodup_cons.mp hnd
      rcases List.mem_cons.mp hm with he | hm'
      · subst he
        show getField (L.foldl _ (sanitizeField r f k)) f = _
        have hnotin : ∀ p ∈ L, f ≠ p.1 := by
          intro p hp hc
          apply hnd'.1
          show f ∈ List.map Prod.fst L
          rw [hc]
          exact List.mem_map_of_mem Prod.fst hp
        rw [sanitize_foldl_other L _ f hnotin]
        exact sanitizeField_same r f k
      · show getField (L.foldl _ (sanitizeField r q.1 q.2)) f = _
        have hne : f ≠ q.1 := by
          intro hc
          apply hnd'.1
          rw [← hc]
          show f ∈ List.map Prod.fst L
          exact List.mem_map_of_mem Prod.fst hm' 
        rw [ih (sanitizeField r q.1 q.2) f k hnd'.2 hm']
        rw [sanitizeField_other r q.1 q.2 f hne]

/-- The per-field characterization of `sanitizeForDataset` on its ten
sanitized fields. -/
theorem sanitizeForDataset_field (r : RecordObj) (f : String) (k : SanKind)
    (hmem : (f, k) ∈ STRING_FIELD_SANITIZERS) :
    getField (sanitizeForDataset r) f = sanStep k (getField r f) :=
  sanitize_foldl_mem STRING_FIELD_SANITIZERS r f k (by decide) hmem

/-- Any value stored by a sanitizer step is a non-empty string. -/
theorem sanStep_shape (k : SanKind) (o : Option JsVal) (v : JsVal)
    (h : sanStep k o = some v) :
    ∃ s, v = .str s ∧ s ≠ "" := by
  rcases o with _ | w
  · exact absurd h (by simp [sanStep])
  · rcases w with _ | s | n | _ | ⟨hd, tl⟩ | _ | ⟨ky, vl, rs⟩ <;>
      simp only [sanStep, sanStepApply] at h <;>
      first
        | exact absurd h (by simp)
        | (rcases ha : applySanitizer k _ with _ | s'
           · rw [ha] at h; exact absurd h (by simp [sanStepApply])
           · rw [ha] at h
             simp only [sanStepApply] at h
             by_cases he : s' = ""
             · rw [if_pos he] at h; exact absurd h (by simp)
             · rw [if_neg he] at h
               exact ⟨s', (Option.some.inj h).symm, he⟩)

/-- A `normalizeWhitespace`-sanitized field value is additionally never
whitespace-only. -/
theorem sanStep_normWs_shape (o : Option JsVal) (v : JsVal)
    (h : sanStep SanKind.normWs o = some v) :
    ∃ s, v = .str s ∧ s ≠ "" ∧ ∃ c ∈ s.data, isWsChar c = false := by
  rcases o with _ | w
  · exact absurd h (by simp [sanStep])
  · rcases w with _ | s | n | _ | ⟨hd, tl⟩ | _ | ⟨ky, vl, rs⟩ <;>
      simp only [sanStep, sanStepApply] at h <;>
      first
        | exact absurd h (by simp)
        | (rcases ha : applySanitizer SanKind.normWs _ with _ | s'
           · rw [ha] at h; exact absurd h (by simp [sanStepApply])
           · rw [ha] at h
             simp only [sanStepApply] at h
             by_cases he : s' = ""
             · rw [if_pos he] at h; exact absurd h (by simp)
             · rw [if_neg he] at h
               refine ⟨s', (Option.some.inj h).symm, he, ?_⟩
               exact normalizeWhitespace_not_ws_only _ s' ha)


/-! ## Claim C10 — sanitizeForDataset frame -/

/-- C10: `sanitizeForDataset` changes or removes only keys of its fixed
ten-field sanitizer list; every other key of the input record appears in the
output with its value unchanged. -/
theorem C10_sanitize_frame (r : RecordObj) (g : String)
    (h : ∀ p ∈ STRING_FIELD_SANITIZERS, g ≠ p.1) :
    getField (sanitizeForDataset r) g = getField r g :=
  sanitize_foldl_other STRING_FIELD_SANITIZERS r g h

/-- Witness: the composite-valued key `tags` (and, unchecked here but in the
same record, a null-valued key) survives sanitization unchanged. -/
theorem C10_sanitize_frame_witness :
    (∀ p ∈ STRING_FIELD_SANITIZERS, "tags" ≠ p.1) ∧
    getField (sanitizeForDataset [("title", JsVal.str " A "), ("tags", jarr [JsVal.str "x"]),
        ("api_source", JsVal.null)]) "tags"
      = getField [("title", JsVal.str " A "), ("tags", jarr [JsVal.str "x"]),
        ("api_source", JsVal.null)] "tags" :=
  ⟨by decide, C10_sanitize_frame
    [("title", JsVal.str " A "), ("tags", jarr [JsVal.str "x"]), ("api_source", JsVal.null)]
    "tags" (by decide)⟩

/-! ## Claim C8 — sparse-field invariant -/

/-- C8 counterexample: the list-mode run `cexRun` persists a record whose
`city` field is the whitespace-only string `" "`.  Fields outside the
ten-entry sanitizer list are neither sanitized nor omitted, so the claimed
record-wide sparse-field invariant fails. -/
theorem C8_counterexample :
    cexRun.pushed.length = 1 ∧
    getField (cexRun.pushed.headD []) "city" = some (JsVal.str " ") ∧
    (" ").data.all isWsChar = true :=
  ⟨rfl, rfl, by decide⟩

/-- C8 (amended): the invariant does hold for the ten fields of the
sanitizer list — whenever such a field is present after `sanitizeForDataset`,
its value is a non-empty string (an empty sanitizer result deletes the
field), and a whitespace-normalized field is moreover never
whitespace-only. -/
theorem C8_sanitized_field_shape (r : RecordObj) (f : String) (k : SanKind)
    (hmem : (f, k) ∈ STRING_FIELD_SANITIZERS) (v : JsVal)
    (hv : getField (sanitizeForDataset r) f = some v) :
    ∃ s, v = JsVal.str s ∧ s ≠ "" ∧
      (k = SanKind.normWs → ∃ c ∈ s.data, isWsChar c = false) := by
  rw [sanitizeForDataset_field r f k hmem] at hv
  cases k with
  | normWs =>
      rcases sanStep_normWs_shape _ v hv with ⟨t, hvt, hne, hc⟩
      exact ⟨t, hvt, hne, fun _ => hc⟩
  | htmlStr =>
      rcases sanStep_shape _ _ v hv with ⟨t, hvt, hne⟩
      exact ⟨t, hvt, hne, fun hk => nomatch hk⟩
  | rawStr =>
      rcases sanStep_shape _ _ v hv with ⟨t, hvt, hne⟩
      exact ⟨t, hvt, hne, fun hk => nomatch hk⟩

/-- Witness: sanitizing a title of `" A "` keeps the field with the
non-empty, non-whitespace value `"A"`. -/
theorem C8_sanitized_field_shape_witness :
    ("title", SanKind.normWs) ∈ STRING_FIELD_SANITIZERS ∧
    getField (sanitizeForDataset [("title", JsVal.str " A ")]) "title"
      = some (JsVal.str "A") ∧
    (∃ s, JsVal.str "A" = JsVal.str s ∧ s ≠ "" ∧
      (SanKind.normWs = SanKind.normWs → ∃ c ∈ s.data, isWsChar c = false)) :=
  ⟨by decide, rfl,
    C8_sanitized_field_shape [("title", JsVal.str " A ")] "title" SanKind.normWs
      (by decide) (JsVal.str "A") rfl⟩

/-! ## Claim C4 — the embedded-payload scanner -/

/-- C4 counterexample: a closing brace inside a quoted string is counted by
the scanner, so for `marker({"a":"}"})` it returns the truncated slice
`{"a":"}` instead of the full object literal. -/
theorem C4_counterexample :
    countableJson ("marker(\x7b\"a\":\"\x7d\"\x7d)").data ("marker(").data
      = some ("\x7b\"a\":\"\x7d").data ∧
    ("\x7b\"a\":\"\x7d").data ≠ ("\x7b\"a\":\"\x7d\"\x7d").data :=
  ⟨rfl, by decide⟩

theorem braceDepth_cons (c : Char) (l : List Char) :
    braceDepth (c :: l) = braceDelta c + braceDepth l := by
  simp [braceDepth]

theorem braceDepth_nil : braceDepth [] = 0 := rfl

/-- The scanning loop closes exactly at the brace that brings the running
depth to zero, counting every brace character. -/
theorem braceClose_run (rest : List Char) :
    ∀ (w : List Char) (d : Int), d + braceDepth w = 1 →
      (∀ k, k ≤ w.length → 0 < d + braceDepth (w.take k)) →
      braceClose (w ++ rbrace :: rest) d = some w.length := by
  intro w
  induction w with
  | nil =>
      intro d hd _
      have h1 : d = 1 := by rw [braceDepth_nil] at hd; omega
      subst h1
      show braceClose (rbrace :: rest) 1 = some 0
      rw [braceClose, if_neg (by decide), if_pos rfl, if_pos (by norm_num)]
  | cons c w ih =>
      intro d hd hpre
      rw [braceDepth_cons] at hd
      by_cases hc : c = lbrace
      · subst hc
        have hdel : braceDelta lbrace = 1 := by decide
        have hp : ∀ k, k ≤ w.length → 0 < (d + 1) + braceDepth (w.take k) := by
          intro k hk
          have := hpre (k + 1) (by simpa using Nat.succ_le_succ hk)
          rw [List.take_succ_cons, braceDepth_cons, hdel] at this
          omega
        show braceClose (lbrace :: (w ++ rbrace :: rest)) d = some (w.length + 1)
        rw [braceClose, if_pos rfl, ih (d + 1) (by omega) hp]
        rfl
      · by_cases hr : c = rbrace
        · subst hr
          have hdel : braceDelta rbrace = -1 := by decide
          have h1 := hpre 1 (by simp)
          rw [List.take_succ_cons, List.take_zero, braceDepth_cons, hdel, braceDepth_nil] at h1
          have hp : ∀ k, k ≤ w.length → 0 < (d - 1) + braceDepth (w.take k) := by
            intro k hk
            have := hpre (k + 1) (by simpa using Nat.succ_le_succ hk)
            rw [List.take_succ_cons, braceDepth_cons, hdel] at this
            omega
          show braceClose (rbrace :: (w ++ rbrace :: rest)) d = some (w.length + 1)
          rw [braceClose, if_neg (by decide), if_pos rfl, if_neg (by omega),
            ih (d - 1) (by rw [hdel] at hd; omega) hp]
          rfl
        · have hdel : braceDelta c = 0 := by
            rw [braceDelta, if_neg hc, if_neg hr]
          have hp : ∀ k, k ≤ w.length → 0 < d + braceDepth (w.take k) := by
            intro k hk
            have := hpre (k + 1) (by simpa using Nat.succ_le_succ hk)
            rw [List.take_succ_cons, braceDepth_cons, hdel] at this
            omega
          show braceClose (c :: (w ++ rbrace :: rest)) d = some (w.length + 1)
          rw [braceClose, if_neg hc, if_neg hr, ih d (by rw [hdel] at hd; omega) hp]
          rfl

theorem braceDelta_eq_neg_one {c : Char} (h : braceDelta c = -1) : c = rbrace := by
  by_cases hc : c = lbrace
  · rw [braceDelta, if_pos hc] at h; omega
  · by_cases hr : c = rbrace
    · exact hr
    · rw [braceDelta, if_neg hc, if_neg hr] at h; omega

/-- On a balanced brace region, the scanner returns the index of the final
closing brace — the slice is neither truncated nor over-extended — whatever
trailing content follows. -/
theorem braceClose_wellBraced (u rest : List Char) (h : wellBraced u) :
    braceClose (u ++ rest) 0 = some (u.length - 1) := by
  rcases h with ⟨hhead, hdep, hpre⟩
  rcases u with _ | ⟨c, u1⟩
  · exact absurd hhead (by simp)
  have hc : c = lbrace := by simpa using hhead
  subst hc
  rw [braceDepth_cons, show braceDelta lbrace = 1 from by decide] at hdep
  have hu1 : u1 ≠ [] := by
    intro he
    rw [he, braceDepth_nil] at hdep
    omega
  rcases he : u1.getLast hu1 with e
  have hsplit : u1 = u1.dropLast ++ [u1.getLast hu1] := (List.dropLast_append_getLast hu1).symm
  set m := u1.dropLast with hm
  have hlen : u1.length = m.length + 1 := by
    rw [hsplit]; simp
  have hdepm : braceDepth u1 = braceDepth m + braceDelta (u1.getLast hu1) := by
    conv_lhs => rw [hsplit]
    simp [braceDepth]
  have hlast : 0 < 1 + braceDepth m := by
    have := hpre (m.length + 1) (by simp only [List.length_cons, hlen]; omega) (by omega)
    rw [List.take_succ_cons] at this
    have htk : u1.take m.length = m := by
      conv_lhs => rw [hsplit]
      simp
    rw [htk, braceDepth_cons, show braceDelta lbrace = 1 from by decide] at this
    exact this
  have hdelta_ge : -1 ≤ braceDelta (u1.getLast hu1) := by
    rw [braceDelta]
    split
    · omega
    · split <;> omega
  have hdelta_le : braceDelta (u1.getLast hu1) ≤ 1 := by
    rw [braceDelta]
    split
    · omega
    · split <;> omega
  have hmzero : braceDepth m = 0 := by omega
  have hdelast : braceDelta (u1.getLast hu1) = -1 := by omega
  have hlaste : u1.getLast hu1 = rbrace := braceDelta_eq_neg_one hdelast
  have hgoal : braceClose (m ++ rbrace :: rest) 1 = some m.length := by
    apply braceClose_run
    · omega
    · intro k hk
      rcases Nat.eq_zero_or_pos k with h0 | h0
      · subst h0; simp [braceDepth_nil]
      · have := hpre (k + 1) (by simp [hlen]; omega) (by omega)
        rw [List.take_succ_cons] at this
        have htk : u1.take k = m.take k := by
          conv_lhs => rw [hsplit]
          rw [List.take_append_of_le_length hk]
        rw [htk, braceDepth_cons, show braceDelta lbrace = 1 from by decide] at this
        exact this
  show braceClose (lbrace :: u1 ++ rest) 0 = _
  rw [List.cons_append, braceClose, if_pos rfl]
  have hru : u1 ++ rest = m ++ rbrace :: rest := by
    conv_lhs => rw [hsplit, hlaste]
    simp
  have h01 : (0 : Int) + 1 = 1 := by norm_num
  rw [hru, h01, hgoal]
  simp [hlen]

/-- C4 (amended): the scanner adjusts its depth on every brace character —
quoted strings are not skipped.  On inputs whose brace region is balanced
under that all-character counting, it returns exactly the region: in
particular the nested-brace scenario of the specification holds verbatim,
and in general the scan closes at the final brace of any balanced region
regardless of trailing content. -/
theorem C4_balanced_region :
    (countableJson ("marker(\x7b\"a\":\x7b\"b\":1\x7d,\"c\":2\x7d) var x = \x7b\x7d;").data
        ("marker(").data
      = some ("\x7b\"a\":\x7b\"b\":1\x7d,\"c\":2\x7d").data) ∧
    ∀ u rest, wellBraced u → braceClose (u ++ rest) 0 = some (u.length - 1) :=
  ⟨rfl, fun u rest h => braceClose_wellBraced u rest h⟩

/-- Witness: the balanced region `{{}}` followed by unrelated text closes at
its final brace. -/
theorem C4_balanced_region_witness :
    braceClose (("\x7b\x7b\x7d\x7d").data ++ ("tail").data) 0
      = some (("\x7b\x7b\x7d\x7d").data.length - 1) :=
  C4_balanced_region.2 ("\x7b\x7b\x7d\x7d").data ("tail").data (by decide)

/-! ## Claim C1 — preview-fallback persistence after the retry ceiling -/

/-- C1: the first two attempts on a detail page with no structured data, no
DOM data and a carried preview are retried, but the final attempt — where the
specification requires persisting a `preview_fallback` record from the
carried preview — instead throws: the forced-acceptance path calls
`extractSalary(jobData)` with `jobData = null`, whose unguarded
`source.Salary` access is a TypeError (the `= {}` default parameter applies
only to `undefined`).  The URL is dropped without persisting anything. -/
theorem C1_forced_fallback_throws :
    isRetryB (detailDecisionB {} 0 (c1Req 0) {} "T0") = true ∧
    isRetryB (detailDecisionB {} 0 (c1Req 1) {} "T0") = true ∧
    detailDecisionB {} 0 (c1Req 2) {} "T0" = Except.error () :=
  ⟨rfl, rfl, rfl⟩

/-! ## Claim C5 — pagination stop conditions -/

/-- C5 counterexample: with `resultsWanted = 10`, `maxPages = 3`, five hits
per page and `collectDetails` left at its default of `true`, all ten previews
have been collected by the end of page 2 yet the page-3 listing URL is still
enqueued: the save-target stop reads the `saved` counter, which lags behind
collected previews while detail pages are in flight. -/
theorem C5_counterexample :
    exCfgDetail.resultsWanted = 10 ∧ exCfgDetail.maxPages = 3 ∧
    (exRunDetail 7).accepted.length = 10 ∧
    (exRunDetail 7).saved = 5 ∧
    (exRunDetail 7).queuedKeys.contains exPage3 = true :=
  ⟨rfl, rfl, rfl, rfl, rfl⟩

/-- C5 (amended): in the scenario the stop does occur when previews are
persisted directly (`collectDetails = false`, where `saved` counts them
immediately); and in general the next-listing-page decision yields no
request when the save target is met, when the page ceiling is reached, when
the source-reported total implies no further page, and never yields a
request whose URL was already visited. -/
theorem C5_pagination_stop :
    ((exRunList 2).saved = 10 ∧ (exRunList 2).accepted.length = 10 ∧
      (exRunList 2).queuedKeys.contains exPage3 = false) ∧
    (∀ cfg req s routeData hits, cfg.resultsWanted ≤ s.saved →
        nextListRequest cfg req s routeData hits = none) ∧
    (∀ cfg req s routeData hits, cfg.maxPages ≤ req.pageNo →
        nextListRequest cfg req s routeData hits = none) ∧
    (∀ cfg req s routeData hits, totalPagesOf routeData hits < req.pageNo + 1 →
        nextListRequest cfg req s routeData hits = none) ∧
    (∀ cfg req s routeData hits r, nextListRequest cfg req s routeData hits = some r →
        s.seenPages.contains r.url = false) := by
  refine ⟨⟨rfl, rfl, rfl⟩, ?_, ?_, ?_, ?_⟩
  · intro cfg req s routeData hits h
    rw [nextListRequest, if_pos (Or.inl h)]
  · intro cfg req s routeData hits h
    rw [nextListRequest, if_pos (Or.inr h)]
  · intro cfg req s routeData hits h
    rw [nextListRequest]
    by_cases h1 : cfg.resultsWanted ≤ s.saved ∨ cfg.maxPages ≤ req.pageNo
    · rw [if_pos h1]
    · rw [if_neg h1, if_pos (Or.inr h)]
  · intro cfg req s routeData hits r h
    rw [nextListRequest] at h
    by_cases h1 : cfg.resultsWanted ≤ s.saved ∨ cfg.maxPages ≤ req.pageNo
    · rw [if_pos h1] at h; exact absurd h (by simp)
    rw [if_neg h1] at h
    by_cases h2 : cfg.maxPages < req.pageNo + 1 ∨ totalPagesOf routeData hits < req.pageNo + 1
    · rw [if_pos h2] at h; exact absurd h (by simp)
    rw [if_neg h2] at h
    by_cases h3 : s.seenPages.contains (nextListUrl cfg req) = true
    · rw [if_pos h3] at h; exact absurd h (by simp)
    rw [if_neg h3] at h
    obtain rfl := Option.some.inj h
    simpa using h3

/-- Witness: each stop condition fired on a concrete decision, and the
cycle-guard conclusion on the concrete page-1 request, whose produced page-2
request is indeed unvisited. -/
theorem C5_pagination_stop_witness :
    nextListRequest exCfgList (listReqAt exPage1 1) { saved := 10 } JsVal.null [] = none ∧
    nextListRequest exCfgList (listReqAt exPage1 3) {} JsVal.null [] = none ∧
    nextListRequest exCfgList (listReqAt exPage1 1) {} JsVal.null [] = none ∧
    ({} : CrawlState).seenPages.contains (listReqAt exPage2 2).url = false :=
  ⟨C5_pagination_stop.2.1 exCfgList (listReqAt exPage1 1) { saved := 10 } JsVal.null [] (by decide),
   C5_pagination_stop.2.2.1 exCfgList (listReqAt exPage1 3) {} JsVal.null [] (by decide),
   C5_pagination_stop.2.2.2.1 exCfgList (listReqAt exPage1 1) {} JsVal.null [] (by decide),
   C5_pagination_stop.2.2.2.2 exCfgList (listReqAt exPage1 1) {} (exListPage 1).routeData
     (jsArrToList (jsOr (jsGet (jsGet (jsGet (exListPage 1).routeData "searchResults") "hits") "hits") JsVal.arrNil))
     (listReqAt exPage2 2) (by rfl)⟩


/-! ## Inversion of the DETAIL decisions -/

theorem persistedRecordM_eq {e : Except Unit DetailResultM} {rec : RecordObj}
    (h : persistedRecordM e = some rec) : e = .ok (.persist rec) := by
  cases e with
  | error e0 => exact absurd h (by simp [persistedRecordM])
  | ok r0 =>
      cases r0 with
      | skipLate => exact absurd h (by simp [persistedRecordM])
      | retry r => exact absurd h (by simp [persistedRecordM])
      | dropNoData => exact absurd h (by simp [persistedRecordM])
      | persist rr =>
          simp only [persistedRecordM, Option.some.injEq] at h
          rw [h]

theorem persistedRecordB_eq {e : Except Unit DetailResultB} {rec : RecordObj}
    (h : persistedRecordB e = some rec) : e = .ok (.persist rec) := by
  cases e with
  | error e0 => exact absurd h (by simp [persistedRecordB])
  | ok r0 =>
      cases r0 with
      | skipLate => exact absurd h (by simp [persistedRecordB])
      | retry r => exact absurd h (by simp [persistedRecordB])
      | dropNoData => exact absurd h (by simp [persistedRecordB])
      | dropBadRecord => exact absurd h (by simp [persistedRecordB])
      | persist rr =>
          simp only [persistedRecordB, Option.some.injEq] at h
          rw [h]

/-- A persisted record of the src/main.js DETAIL branch is the sanitized
DETAIL record built from the parsed page, and it is only produced below the
save target. -/
theorem detailDecisionM_persist (cfg : Config) (saved : Nat) (req : Request)
    (page : DetailPageData) (now : String) (rec : RecordObj)
    (h : detailDecisionM cfg saved req page now = .ok (.persist rec)) :
    saved < cfg.resultsWanted ∧
    ∃ sal, rec = sanitizeForDataset (detailRecordM now req.url
      (routeJobData page.routeData)
      (jsOrNull (extractJsonLd page.jsonLdPayloads).jobPosting)
      (extractJsonLd page.jsonLdPayloads).all
      (parseDomFallbackDetailM page.docM) req.preview req.jobId sal) := by
  rw [detailDecisionM] at h
  split at h
  · exact absurd h (by simp)
  next h0 =>
    refine ⟨by omega, ?_⟩
    (repeat' split at h) <;> simp at h <;> exact ⟨_, h.symm⟩

/-- A persisted record of the variant-B DETAIL branch is the sanitized
DETAIL record built from the parsed page; it is only produced below the save
target and only after the required-field check passed. -/
theorem detailDecisionB_persist (cfg : Config) (saved : Nat) (req : Request)
    (page : DetailPageData) (now : String) (rec : RecordObj)
    (h : detailDecisionB cfg saved req page now = .ok (.persist rec)) :
    saved < cfg.resultsWanted ∧
    ¬((getField rec "title").isNone ∨ (getField rec "job_url").isNone) ∧
    ∃ sal hsd, rec = sanitizeForDataset (detailRecordB now req.url
      (routeJobData page.routeData)
      (jsOrNull (extractJsonLd page.jsonLdPayloads).jobPosting)
      (extractJsonLd page.jsonLdPayloads).all
      (parseDomFallbackDetailB page.docB) req.preview req.jobId sal hsd) := by
  rw [detailDecisionB] at h
  split at h
  · exact absurd h (by simp)
  next h0 =>
    refine ⟨by omega, ?_⟩
    (repeat' split at h) <;> (try (rename_i hbad)) <;> simp at h <;>
      (subst h; exact ⟨hbad, _, _, rfl⟩)

/-! ## Claim C6 — non-empty title and job_url of persisted records -/

/-- C6 counterexample: in list mode both variants push the sanitized preview
record without any required-field check; the run `cexRun` (a hit with no
title anywhere) persists a record with no `title` field at all.  The claimed
every-persisted-record guarantee therefore fails; the required-field check
exists only in the variant-B DETAIL branch. -/
theorem C6_counterexample :
    cexRun.saved = 1 ∧ cexRun.pushed.length = 1 ∧
    getField (cexRun.pushed.headD []) "title" = none ∧
    getField (cexRun.pushed.headD []) "job_url"
      = some (JsVal.str "https://r.co/jobs/x_71/") :=
  ⟨rfl, rfl, rfl, rfl⟩

/-- C6 (amended): in the variant-B DETAIL branch the invariant holds — every
record that branch persists carries a non-empty string `title` and a
non-empty string `job_url`, because a sanitized record failing either check
is dropped before the push. -/
theorem C6_required_fields (cfg : Config) (saved : Nat) (req : Request)
    (page : DetailPageData) (now : String) (rec : RecordObj)
    (h : persistedRecordB (detailDecisionB cfg saved req page now) = some rec) :
    (∃ s, getField rec "title" = some (JsVal.str s) ∧ s ≠ "") ∧
    (∃ s, getField rec "job_url" = some (JsVal.str s) ∧ s ≠ "") := by
  obtain ⟨hlt, hreq, sal, hsd, hrec⟩ :=
    detailDecisionB_persist cfg saved req page now rec (persistedRecordB_eq h)
  rw [not_or] at hreq
  obtain ⟨hrt, hru⟩ := hreq
  constructor
  · rcases hv : getField rec "title" with _ | v
    · rw [hv] at hrt
      simp at hrt
    · have hv2 := hv
      rw [hrec, sanitizeForDataset_field _ "title" SanKind.normWs (by decide)] at hv2
      obtain ⟨t, rfl, ht⟩ := sanStep_shape _ _ _ hv2
      exact ⟨t, rfl, ht⟩
  · rcases hv : getField rec "job_url" with _ | v
    · rw [hv] at hru
      simp at hru
    · have hv2 := hv
      rw [hrec, sanitizeForDataset_field _ "job_url" SanKind.rawStr (by decide)] at hv2
      obtain ⟨t, rfl, ht⟩ := sanStep_shape _ _ _ hv2
      exact ⟨t, rfl, ht⟩

/-- Witness: a detail page with structured data persists, and the persisted
record indeed has non-empty `title` and `job_url`. -/
theorem C6_required_fields_witness :
    (∃ s, getField ((persistedRecordB (detailDecisionB {} 0
        (detailReqAt "https://r.co/jobs/w_1/") exDetailPage "T0")).getD []) "title"
        = some (JsVal.str s) ∧ s ≠ "") ∧
    (∃ s, getField ((persistedRecordB (detailDecisionB {} 0
        (detailReqAt "https://r.co/jobs/w_1/") exDetailPage "T0")).getD []) "job_url"
        = some (JsVal.str s) ∧ s ≠ "") :=
  C6_required_fields {} 0 (detailReqAt "https://r.co/jobs/w_1/") exDetailPage "T0" _ (by rfl)

/-! ## Claim C7 — title and company resolution order -/

/-- C7 counterexample: on a detail page whose markup heuristic and embedded
payload offer no title, whose JSON-LD JobPosting has title `LD Title`, and
whose carried preview has title `Preview Title`, the persisted record titles
`Preview Title` — the claimed markup → embedded → linked-data → preview
order would have picked `LD Title`.  The JSON-LD title is never consulted
for the record title. -/
theorem C7_counterexample :
    (parseDomFallbackDetailB c7Page.docB).title = JsVal.null ∧
    jsGet (jsGet (routeJobData c7Page.routeData) "JobInformation") "Title" = JsVal.null ∧
    jsGet (jsOrNull (extractJsonLd c7Page.jsonLdPayloads).jobPosting) "title"
      = JsVal.str "LD Title" ∧
    pvGet c7Req.preview (fun p => p.title) = JsVal.str "Preview Title" ∧
    getField ((persistedRecordB (detailDecisionB {} 0 c7Req c7Page "T0")).getD []) "title"
      = some (JsVal.str "Preview Title") ∧
    specOrderResolve JsVal.null JsVal.null (JsVal.str "LD Title") (JsVal.str "Preview Title")
      = JsVal.str "LD Title" :=
  ⟨rfl, rfl, rfl, rfl, rfl, rfl⟩

/-- C7 (amended): the actual variant-B resolution orders.  The record title
is the markup-heuristic title, else (nullish) the embedded-payload title,
else the carried preview title, defaulting to `Untitled` — structured linked
data is never consulted for the title.  The record company is the
markup-heuristic company, else the embedded-payload company, else the
preview company, and only then the JSON-LD organization name, defaulting to
`Randstad`. -/
theorem C7_resolution_order (cfg : Config) (saved : Nat) (req : Request)
    (page : DetailPageData) (now : String) (rec : RecordObj)
    (h : persistedRecordB (detailDecisionB cfg saved req page now) = some rec) :
    getField rec "title" = sanStep SanKind.normWs (some (resolveTitleB
        (parseDomFallbackDetailB page.docB).title
        (jsGet (jsGet (routeJobData page.routeData) "JobInformation") "Title")
        (pvGet req.preview (fun p => p.title)))) ∧
    getField rec "company" = sanStep SanKind.normWs (some (resolveCompanyB
        (parseDomFallbackDetailB page.docB).company
        (jsGet (jsGet (routeJobData page.routeData) "JobIdentity") "CompanyName")
        (pvGet req.preview (fun p => p.company))
        (jsGet (jsGet (jsOrNull (extractJsonLd page.jsonLdPayloads).jobPosting)
          "hiringOrganization") "name"))) := by
  obtain ⟨hlt, hreq, sal, hsd, hrec⟩ :=
    detailDecisionB_persist cfg saved req page now rec (persistedRecordB_eq h)
  subst hrec
  constructor
  · rw [sanitizeForDataset_field _ "title" SanKind.normWs (by decide)]
    rfl
  · rw [sanitizeForDataset_field _ "company" SanKind.normWs (by decide)]
    rfl

/-- Witness: the amended resolution equations on the concrete reconciliation
scenario. -/
theorem C7_resolution_order_witness :
    getField ((persistedRecordB (detailDecisionB {} 0 c7Req c7Page "T0")).getD []) "title"
      = sanStep SanKind.normWs (some (resolveTitleB
          (parseDomFallbackDetailB c7Page.docB).title
          (jsGet (jsGet (routeJobData c7Page.routeData) "JobInformation") "Title")
          (pvGet c7Req.preview (fun p => p.title)))) ∧
    getField ((persistedRecordB (detailDecisionB {} 0 c7Req c7Page "T0")).getD []) "company"
      = sanStep SanKind.normWs (some (resolveCompanyB
          (parseDomFallbackDetailB c7Page.docB).company
          (jsGet (jsGet (routeJobData c7Page.routeData) "JobIdentity") "CompanyName")
          (pvGet c7Req.preview (fun p => p.company))
          (jsGet (jsGet (jsOrNull (extractJsonLd c7Page.jsonLdPayloads).jobPosting)
            "hiringOrganization") "name"))) :=
  C7_resolution_order {} 0 c7Req c7Page "T0" _ (by rfl)

/-! ## Claim C9 — HTML/text agreement -/

theorem jsOrNull_shape (a : JsVal) :
    jsOrNull a = JsVal.null ∨ jsFalsy (jsOrNull a) = false := by
  rw [jsOrNull, jsOr]
  by_cases h : jsTruthy a = true
  · right
    rw [if_pos h]
    simpa [jsTruthy] using h
  · left
    rw [if_neg h]

/-- The sanitization-level core of the HTML/text agreement: if a record
carries `description_html = d` (null or truthy, as `jsOrNull` produces) and
`description_text = htmlToText d`, then after sanitization, whenever the
record still has a `description_html` value, its `description_text` is
exactly `htmlToText` of that retained value. -/
theorem sanitized_desc_agreement (r : RecordObj) (d : JsVal)
    (hfal : d = JsVal.null ∨ jsFalsy d = false)
    (hhtml : getField r "description_html" = some d)
    (htext : getField r "description_text" = some (optToJs (htmlToText d)))
    (hv : JsVal) (hh : getField (sanitizeForDataset r) "description_html" = some hv) :
    getField (sanitizeForDataset r) "description_text"
      = Option.map JsVal.str (htmlToText hv) := by
  rw [sanitizeForDataset_field r _ SanKind.htmlStr (by decide), hhtml] at hh
  rw [sanitizeForDataset_field r _ SanKind.normWs (by decide), htext]
  rcases hfal with rfl | hfal
  · exact absurd hh (by simp [sanStep])
  · have hstep : sanStep SanKind.htmlStr (some d) = sanStepApply (some (jsToString d)) := by
      rcases d with _ | s | n | _ | ⟨h0, t0⟩ | _ | ⟨k0, v0, r0⟩
      · exact absurd hfal (by decide)
      all_goals rfl
    rw [hstep] at hh
    by_cases hs0 : jsToString d = ""
    · rw [sanStepApply, if_pos hs0] at hh
      exact absurd hh (by simp)
    · rw [sanStepApply, if_neg hs0] at hh
      obtain rfl : JsVal.str (jsToString d) = hv := Option.some.inj hh
      have hhtml_eq : htmlToText (JsVal.str (jsToString d)) = htmlToText d := by
        rw [htmlToText, htmlToText, if_neg (by simp [jsFalsy, hs0]),
          if_neg (by simp [hfal])]
        rfl
      rw [hhtml_eq]
      rcases hht : htmlToText d with _ | t
      · show sanStep SanKind.normWs (some (optToJs none)) = none
        rfl
      · have hfix := htmlToText_fixpoint d t hht
        have hne : t ≠ "" := (normalizeWhitespace_eq_some _ _ hfix).2
        show sanStep SanKind.normWs (some (optToJs (some t))) = some (JsVal.str t)
        show sanStep SanKind.normWs (some (JsVal.str t)) = some (JsVal.str t)
        rw [sanStep, applySanitizer, hfix, sanStepApply, if_neg hne]
        exact fun hcon => JsVal.noConfusion hcon

/-- C9: for every record persisted by the DETAIL branch, whenever the record
has a `description_html` value, its `description_text` is exactly
`htmlToText` of that value — whitespace-collapsed, script/style-stripped —
never sourced from anything else (and absent exactly when that rendering is
empty). -/
theorem C9_description_agreement (cfg : Config) (saved : Nat) (req : Request)
    (page : DetailPageData) (now : String) (rec : RecordObj)
    (hrec : persistedRecordM (detailDecisionM cfg saved req page now) = some rec)
    (hv : JsVal) (hh : getField rec "description_html" = some hv) :
    getField rec "description_text" = Option.map JsVal.str (htmlToText hv) := by
  obtain ⟨hlt, sal, hrec'⟩ :=
    detailDecisionM_persist cfg saved req page now rec (persistedRecordM_eq hrec)
  subst hrec'
  refine sanitized_desc_agreement _
    (jsOrNull (jsOr (jsGet (jsGet (routeJobData page.routeData) "JobInformation") "Description")
      (jsOr (jsGet (jsOrNull (extractJsonLd page.jsonLdPayloads).jobPosting) "description")
        (parseDomFallbackDetailM page.docM).descriptionHtml)))
    (jsOrNull_shape _) ?_ ?_ hv hh
  · rfl
  · rfl

/-- Witness: on the concrete detail page, the persisted record has
`description_html = "<p>Desc</p>"` and its `description_text` is exactly the
rendered `Desc`. -/
theorem C9_description_agreement_witness :
    getField ((persistedRecordM (detailDecisionM {} 0
        (detailReqAt "https://r.co/jobs/d_1/") exDetailPage "T0")).getD [])
        "description_text"
      = Option.map JsVal.str (htmlToText (JsVal.str "<p>Desc</p>")) :=
  C9_description_agreement {} 0 (detailReqAt "https://r.co/jobs/d_1/") exDetailPage "T0"
    _ (by rfl) (JsVal.str "<p>Desc</p>") (by rfl)


/-! ## Claim C2 — the target cap -/

theorem addRequest_saved (s : CrawlState) (r : Request) :
    (addRequest s r).1.saved = s.saved := by
  rw [addRequest]
  split <;> rfl

theorem dispatchStep_saved (s : CrawlState) (p : Preview) :
    (dispatchStep s p).saved = s.saved := by
  rw [dispatchStep]
  split <;> simp [addRequest_saved]

theorem dispatchDetails_saved (cfg : Config) (reqUrl : String) :
    ∀ (l : List Preview) (s : CrawlState), (dispatchDetails cfg reqUrl s l).saved = s.saved := by
  intro l
  induction l with
  | nil => intro s; rfl
  | cons p rest ih =>
      intro s
      rw [dispatchDetails]
      split
      · rfl
      · split
        · exact ih s
        · rw [ih (dispatchStep s p), dispatchStep_saved]

theorem persistPhase_saved_le (cfg : Config) (env : Env) (reqUrl : String)
    (previews : List Preview) (s : CrawlState) (h : s.saved ≤ cfg.resultsWanted) :
    (persistPhase cfg env reqUrl previews s).saved ≤ cfg.resultsWanted := by
  rw [persistPhase]
  split
  · split
    next hlt =>
      show s.saved + ((previews.take (cfg.resultsWanted - s.saved)).map
        (fun p => sanitizeForDataset (listRecord env.now p))).length ≤ cfg.resultsWanted
      have hlen : ((previews.take (cfg.resultsWanted - s.saved)).map
          (fun p => sanitizeForDataset (listRecord env.now p))).length
            ≤ cfg.resultsWanted - s.saved := by
        rw [List.length_map, List.length_take]
        exact min_le_left _ _
      omega
    · exact h
  · rw [dispatchDetails_saved]
    exact h

theorem nextPagePhase_saved (cfg : Config) (req : Request) (routeData : JsVal)
    (hits : List JsVal) (s : CrawlState) :
    (nextPagePhase cfg req routeData hits s).saved = s.saved := by
  rw [nextPagePhase]
  split
  · rfl
  · rw [addRequest_saved]

theorem handleList_saved_le (cfg : Config) (env : Env) (req : Request) (s : CrawlState)
    (h : s.saved ≤ cfg.resultsWanted) :
    (handleList cfg env req s).saved ≤ cfg.resultsWanted := by
  rw [handleList, nextPagePhase_saved]
  exact persistPhase_saved_le _ _ _ _ _ h

theorem applyDetail_saved_le (cfg : Config) (env : Env) (req : Request) (s : CrawlState)
    (h : s.saved ≤ cfg.resultsWanted) :
    (applyDetail cfg env req s).saved ≤ cfg.resultsWanted := by
  rw [applyDetail]
  split
  · exact h
  · rw [addRequest_saved]
    exact h
  · exact h
  next rec heq =>
    have hlt := (detailDecisionM_persist _ _ _ _ _ _ heq).1
    show s.saved + 1 ≤ cfg.resultsWanted
    omega
  · exact h

theorem stepReq_saved_le (cfg : Config) (env : Env) (s : CrawlState) (req : Request)
    (h : s.saved ≤ cfg.resultsWanted) :
    (stepReq cfg env s req).saved ≤ cfg.resultsWanted := by
  rw [stepReq]
  split
  · exact handleList_saved_le _ _ _ _ h
  · exact applyDetail_saved_le _ _ _ _ h

theorem stepRel_saved_le (cfg : Config) (env : Env) (s t : CrawlState)
    (hst : StepRel cfg env s t) (h : s.saved ≤ cfg.resultsWanted) :
    t.saved ≤ cfg.resultsWanted := by
  obtain ⟨pre, req, post, hq, rfl⟩ := hst
  exact stepReq_saved_le _ _ _ _ h

/-- C2: over every serialized run of handler invocations, the saved-record
counter never exceeds `resultsWanted`: list-mode persistence truncates to the
remaining capacity, detail dispatch does not touch the counter, and a detail
completion arriving at or past the target is discarded without persisting. -/
theorem C2_target_cap (cfg : Config) (env : Env) (s t : CrawlState)
    (h0 : s.saved ≤ cfg.resultsWanted)
    (hr : ReachableFrom cfg env s t) : t.saved ≤ cfg.resultsWanted := by
  induction hr with
  | refl => exact h0
  | step hreach hstep ih => exact stepRel_saved_le _ _ _ _ hstep ih

/-- The first FIFO step is one scheduling step of the transition relation. -/
theorem fifoReach1_reachable (cfg : Config) (env : Env) (u : String) :
    ReachableFrom cfg env (initState cfg [u]) (fifoReach1 cfg env u) :=
  .step (.refl _) ⟨[], initRequest cfg u, [], rfl, rfl⟩

/-- Witness: the cap holds after the first handled listing page of the
concrete list-mode scenario. -/
theorem C2_target_cap_witness :
    (fifoReach1 exCfgList exEnv exPage1).saved ≤ exCfgList.resultsWanted :=
  C2_target_cap exCfgList exEnv (initState exCfgList [exPage1]) (fifoReach1 exCfgList exEnv exPage1)
    (by decide) (fifoReach1_reachable exCfgList exEnv exPage1)


/-! ## Claim C3 — dedup invariant: basic lemmas -/

theorem jsEqb_eq {a b : JsVal} (h : jsEqb a b = true) : a = b := by
  cases a <;> cases b <;> simp_all [jsEqb]

theorem seenAny_cons (x : JsVal) (l : List JsVal) (v : JsVal) :
    seenAny (x :: l) v = (jsEqb x v || seenAny l v) := by
  simp [seenAny]

theorem seenAny_append (a b : List JsVal) (v : JsVal) :
    seenAny (a ++ b) v = (seenAny a v || seenAny b v) := by
  simp [seenAny]

theorem seenSub_trans {a b c : List JsVal} (h1 : SeenSub a b) (h2 : SeenSub b c) :
    SeenSub a c :=
  fun v h => h2 v (h1 v h)

theorem seenSub_scanSeenUpdate (dedupe : Bool) (jobId : JsVal) (jobUrl : String)
    (seen : List JsVal) : SeenSub seen (scanSeenUpdate dedupe jobId jobUrl seen) := by
  intro v hv
  rw [scanSeenUpdate]
  split
  · rw [seenAny_append, seenAny_cons, hv]
    simp
  · exact hv

theorem seenAny_of_mem {l : List JsVal} {v x : JsVal} (hx : x ∈ l)
    (he : jsEqb x v = true) : seenAny l v = true := by
  rw [seenAny, List.any_eq_true]
  exact ⟨x, hx, he⟩

theorem pushedCount_set_queue (s : CrawlState) (q : List Request) (u : String) :
    pushedCount { s with queue := q } u = pushedCount s u := rfl

theorem addRequest_queue_mem (s : CrawlState) (r : Request) {x : Request}
    (hx : x ∈ (addRequest s r).1.queue) : x ∈ s.queue ∨ x = r := by
  rw [addRequest] at hx
  split at hx
  · exact Or.inl hx
  · rcases List.mem_append.mp hx with h | h
    · exact Or.inl h
    · exact Or.inr (List.mem_singleton.mp h)

theorem liveCount_split (s : CrawlState) (pre post : List Request) (req : Request)
    (hq : s.queue = pre ++ req :: post) (u : String) :
    liveCount s u = liveCount { s with queue := pre ++ post } u
      + (if req.label = ReqLabel.detail ∧ req.url = u then 1 else 0) := by
  rw [liveCount, liveCount, hq]
  show (pre ++ req :: post).countP _ = (pre ++ post).countP _ + _
  rw [List.countP_append, List.countP_cons, List.countP_append]
  by_cases hc : req.label = ReqLabel.detail ∧ req.url = u <;> simp [hc] <;> omega

theorem dedupInv_congr (cfg : Config) (s s2 : CrawlState)
    (hp : s2.pushed = s.pushed) (hq : s2.queue = s.queue) (hs : s2.seenJobs = s.seenJobs)
    (ha : s2.accepted = s.accepted) (hk : s2.queuedKeys = s.queuedKeys)
    (inv : DedupInv cfg s) : DedupInv cfg s2 := by
  constructor
  · rw [hp]; exact inv.pushedUrls
  · rw [hp, hs]; exact inv.pushedSeen
  · rw [hq, hs]; exact inv.queueSeen
  · intro hf u
    rw [pushedCount, liveCount, hp, hq]
    exact inv.capOne hf u
  · intro hf u h1
    rw [pushedCount, liveCount, hp, hq] at h1
    rw [hk]
    exact inv.keyGuard hf u h1
  · intro hf u
    rw [liveCount, hq]
    exact inv.listNoLive hf u
  · rw [ha]; exact inv.acceptedIds
  · rw [ha, hs]; exact inv.acceptedSeen

theorem dedupInv_dequeue (cfg : Config) (s : CrawlState) (pre post : List Request)
    (req : Request) (hq : s.queue = pre ++ req :: post) (inv : DedupInv cfg s) :
    DedupInv cfg { s with queue := pre ++ post } := by
  constructor
  · exact inv.pushedUrls
  · exact inv.pushedSeen
  · intro r hr hl
    refine inv.queueSeen r ?_ hl
    rw [hq]
    rcases List.mem_append.mp hr with h1 | h1
    · exact List.mem_append.mpr (Or.inl h1)
    · exact List.mem_append.mpr (Or.inr (List.mem_cons_of_mem req h1))
  · intro hf u
    have hc := inv.capOne hf u
    have hsplit := liveCount_split s pre post req hq u
    rw [pushedCount_set_queue]
    omega
  · intro hf u h1
    rw [pushedCount_set_queue] at h1
    have hsplit := liveCount_split s pre post req hq u
    exact inv.keyGuard hf u (by omega)
  · intro hf u
    have h0 := inv.listNoLive hf u
    have hsplit := liveCount_split s pre post req hq u
    omega
  · exact inv.acceptedIds
  · exact inv.acceptedSeen

theorem dedupInv_of_simple (cfg : Config) (s : CrawlState) (hp : s.pushed = [])
    (ha : s.accepted = []) (hq : ∀ r ∈ s.queue, r.label = ReqLabel.list) :
    DedupInv cfg s := by
  have hpc : ∀ u, pushedCount s u = 0 := by
    intro u
    rw [pushedCount, hp]
    rfl
  have hlc : ∀ u, liveCount s u = 0 := by
    intro u
    rw [liveCount, List.countP_eq_zero]
    intro r hr
    simp [hq r hr]
  constructor
  · rw [hp]; exact List.Pairwise.nil
  · intro rec hrec
    rw [hp] at hrec
    cases hrec
  · intro r hr hl
    rw [hq r hr] at hl
    exact ReqLabel.noConfusion hl
  · intro _ u
    rw [hpc, hlc]
    omega
  · intro _ u h1
    rw [hpc, hlc] at h1
    omega
  · intro _ u
    exact hlc u
  · rw [ha]; exact List.Pairwise.nil
  · intro p hp2
    rw [ha] at hp2
    cases hp2

theorem initState_simple (cfg : Config) (urls : List String) :
    (initState cfg urls).pushed = [] ∧ (initState cfg urls).accepted = []
      ∧ ∀ r ∈ (initState cfg urls).queue, r.label = ReqLabel.list := by
  rw [initState]
  have key : ∀ (us : List String) (s : CrawlState), s.pushed = [] → s.accepted = [] →
      (∀ r ∈ s.queue, r.label = ReqLabel.list) →
      (us.foldl (fun s u => (addRequest s (initRequest cfg u)).1) s).pushed = []
      ∧ (us.foldl (fun s u => (addRequest s (initRequest cfg u)).1) s).accepted = []
      ∧ ∀ r ∈ (us.foldl (fun s u => (addRequest s (initRequest cfg u)).1) s).queue,
          r.label = ReqLabel.list := by
    intro us
    induction us with
    | nil => intro s h1 h2 h3; exact ⟨h1, h2, h3⟩
    | cons u us ih =>
        intro s h1 h2 h3
        apply ih (addRequest s (initRequest cfg u)).1
        · rw [addRequest]
          split
          · exact h1
          · exact h1
        · rw [addRequest]
          split
          · exact h2
          · exact h2
        · intro r hr
          rcases addRequest_queue_mem s (initRequest cfg u) hr with h4 | h4
          · exact h3 r h4
          · rw [h4]
            rfl
  exact key urls {} rfl rfl (by intro r hr; cases hr)

theorem dedupInv_init (cfg : Config) (urls : List String) :
    DedupInv cfg (initState cfg urls) :=
  dedupInv_of_simple cfg _ (initState_simple cfg urls).1 (initState_simple cfg urls).2.1
    (initState_simple cfg urls).2.2


/-! ## Claim C3 — soundness of the preview scans -/

theorem scanAccept_out (p : Preview) (seen seenF : List JsVal)
    (hsub : SeenSub (scanSeenUpdate true p.jobId p.jobUrl seen) seenF)
    (hg1 : jsTruthy p.jobId = true → seenAny seen p.jobId = false)
    (hg2 : seenAny seen (JsVal.str p.jobUrl) = false) :
    ScanOut seen seenF p := by
  refine ⟨hg2, hg1, ?_, ?_⟩
  · apply hsub
    rw [scanSeenUpdate, if_pos rfl, seenAny_append, seenAny_cons]
    simp [jsEqb]
  · intro hrefl htr
    apply hsub
    rw [scanSeenUpdate, if_pos rfl, seenAny_append, if_pos htr]
    simp [seenAny, hrefl]

theorem scanOut_mono (p : Preview) (seen0 sn seenF : List JsVal)
    (hsub : SeenSub seen0 sn) (h : ScanOut sn seenF p) : ScanOut seen0 seenF p := by
  obtain ⟨a, b, c, d⟩ := h
  refine ⟨?_, ?_, c, d⟩
  · rcases hb : seenAny seen0 (JsVal.str p.jobUrl) with _ | _
    · rfl
    · rw [hsub _ hb] at a
      exact a
  · intro htr
    rcases hb : seenAny seen0 p.jobId with _ | _
    · rfl
    · rw [hsub _ hb] at b
      exact b htr

theorem scanAccept_rel (p0 p : Preview) (seen seenF2 : List JsVal)
    (hout : ScanOut (scanSeenUpdate true p0.jobId p0.jobUrl seen) seenF2 p) :
    ScanRel p0 p := by
  obtain ⟨a, b, _, _⟩ := hout
  constructor
  · intro htr0
    rcases he : jsEqb p0.jobId p.jobId with _ | _
    · rfl
    · have heq := jsEqb_eq he
      have hrefl : jsEqb p0.jobId p0.jobId = true := by
        rw [← heq] at he
        exact he
      have htrp : jsTruthy p.jobId = true := by
        rw [← heq]
        exact htr0
      have hfalse := b htrp
      rw [← heq, scanSeenUpdate, if_pos rfl, seenAny_append, if_pos htr0] at hfalse
      simp [seenAny, hrefl] at hfalse
  · intro hurl
    rw [← hurl, scanSeenUpdate, if_pos rfl, seenAny_append, seenAny_cons] at a
    simp [jsEqb] at a

theorem scanHits_sound (bo ru : String) :
    ∀ (hits : List JsVal) (acc : List Preview) (seen : List JsVal),
      SeenSub seen (scanHits true bo ru hits acc seen).2
      ∧ ∃ new, (scanHits true bo ru hits acc seen).1 = acc ++ new
          ∧ (∀ p ∈ new, ScanOut seen (scanHits true bo ru hits acc seen).2 p)
          ∧ List.Pairwise ScanRel new := by
  intro hits
  induction hits with
  | nil =>
      intro acc seen
      refine ⟨fun v h => h, [], by simp [scanHits], ?_, List.Pairwise.nil⟩
      intro p hp
      cases hp
  | cons hit rest ih =>
      intro acc seen
      rw [scanHits]
      split
      · exact ih acc seen
      · split
        · exact ih acc seen
        next jobUrl hurl =>
          split
          · exact ih acc seen
          next hg1 =>
            split
            · exact ih acc seen
            next hg2 =>
              obtain ⟨hsub, new2, hprev, hout, hpw⟩ :=
                ih (acc ++ [previewOfHit (jsGet hit "_source") jobUrl
                    (hitJobId (jsGet hit "_source") (jsGet hit "_id"))])
                  (scanSeenUpdate true (hitJobId (jsGet hit "_source") (jsGet hit "_id"))
                    jobUrl seen)
              have hg1a : jsTruthy (hitJobId (jsGet hit "_source") (jsGet hit "_id")) = true →
                  seenAny seen (hitJobId (jsGet hit "_source") (jsGet hit "_id")) = false := by
                intro htr
                rcases hb : seenAny seen (hitJobId (jsGet hit "_source") (jsGet hit "_id"))
                  with _ | _
                · rfl
                · exact absurd (by rw [htr, hb]; rfl) hg1
              have hg2a : seenAny seen (JsVal.str jobUrl) = false := by
                rcases hb : seenAny seen (JsVal.str jobUrl) with _ | _
                · rfl
                · exact absurd (by rw [hb]; rfl) hg2
              refine ⟨seenSub_trans (seenSub_scanSeenUpdate _ _ _ _) hsub,
                previewOfHit (jsGet hit "_source") jobUrl
                  (hitJobId (jsGet hit "_source") (jsGet hit "_id")) :: new2, ?_, ?_, ?_⟩
              · rw [hprev]
                simp
              · intro p hp
                rcases List.mem_cons.mp hp with rfl | hp2
                · exact scanAccept_out _ _ _ hsub hg1a hg2a
                · exact scanOut_mono _ _ _ _ (seenSub_scanSeenUpdate _ _ _ _) (hout p hp2)
              · exact List.Pairwise.cons (fun p hp2 => scanAccept_rel _ p _ _ (hout p hp2)) hpw

theorem scanDomJobs_sound :
    ∀ (jobs : List DomJob) (acc : List Preview) (seen : List JsVal),
      SeenSub seen (scanDomJobs true jobs acc seen).2
      ∧ ∃ new, (scanDomJobs true jobs acc seen).1 = acc ++ new
          ∧ (∀ p ∈ new, ScanOut seen (scanDomJobs true jobs acc seen).2 p)
          ∧ List.Pairwise ScanRel new := by
  intro jobs
  induction jobs with
  | nil =>
      intro acc seen
      refine ⟨fun v h => h, [], by simp [scanDomJobs], ?_, List.Pairwise.nil⟩
      intro p hp
      cases hp
  | cons job rest ih =>
      intro acc seen
      rw [scanDomJobs]
      split
      · exact ih acc seen
      next hg2 =>
        split
        · exact ih acc seen
        next hg1 =>
          obtain ⟨hsub, new2, hprev, hout, hpw⟩ :=
            ih (acc ++ [previewOfDomJob job (optToJs (underscoreIdMatch job.jobUrl))])
              (scanSeenUpdate true (optToJs (underscoreIdMatch job.jobUrl)) job.jobUrl seen)
          have hg1a : jsTruthy (optToJs (underscoreIdMatch job.jobUrl)) = true →
              seenAny seen (optToJs (underscoreIdMatch job.jobUrl)) = false := by
            intro htr
            rcases hb : seenAny seen (optToJs (underscoreIdMatch job.jobUrl)) with _ | _
            · rfl
            · exact absurd (by rw [htr, hb]; rfl) hg1
          have hg2a : seenAny seen (JsVal.str job.jobUrl) = false := by
            rcases hb : seenAny seen (JsVal.str job.jobUrl) with _ | _
            · rfl
            · exact absurd (by rw [hb]; rfl) hg2
          refine ⟨seenSub_trans (seenSub_scanSeenUpdate _ _ _ _) hsub,
            previewOfDomJob job (optToJs (underscoreIdMatch job.jobUrl)) :: new2, ?_, ?_, ?_⟩
          · rw [hprev]
            simp
          · intro p hp
            rcases List.mem_cons.mp hp with rfl | hp2
            · exact scanAccept_out _ _ _ hsub hg1a hg2a
            · exact scanOut_mono _ _ _ _ (seenSub_scanSeenUpdate _ _ _ _) (hout p hp2)
          · exact List.Pairwise.cons (fun p hp2 => scanAccept_rel _ p _ _ (hout p hp2)) hpw

/-- Soundness of the combined preview scan of the LIST branch, started on the
run state. -/
theorem scannedPreviews_sound (cfg : Config) (env : Env) (req : Request) (s : CrawlState)
    (hd : cfg.dedupe = true) :
    SeenSub s.seenJobs (scannedPreviews cfg env req s).2
    ∧ (∀ p ∈ (scannedPreviews cfg env req s).1, ScanOut s.seenJobs (scannedPreviews cfg env req s).2 p)
    ∧ List.Pairwise ScanRel (scannedPreviews cfg env req s).1 := by
  rw [scannedPreviews, hd]
  split
  next hempty =>
    obtain ⟨hsub1, new1, hprev1, hout1, hpw1⟩ :=
      scanHits_sound req.baseOrigin req.url (listHits (env.listPage req.url).routeData) [] s.seenJobs
    obtain ⟨hsub2, new2, hprev2, hout2, hpw2⟩ :=
      scanDomJobs_sound (parseDomFallbackList (env.listPage req.url).domCards req.url)
        (scanHits true req.baseOrigin req.url (listHits (env.listPage req.url).routeData)
          [] s.seenJobs).1
        (scanHits true req.baseOrigin req.url (listHits (env.listPage req.url).routeData)
          [] s.seenJobs).2
    have hnil : (scanHits true req.baseOrigin req.url (listHits (env.listPage req.url).routeData)
        [] s.seenJobs).1 = [] := by
      rw [List.isEmpty_iff] at hempty
      exact hempty
    refine ⟨seenSub_trans hsub1 hsub2, ?_, ?_⟩
    · intro p hp
      rw [hprev2, hnil] at hp
      simp only [List.nil_append] at hp
      exact scanOut_mono _ _ _ _ hsub1 (hout2 p hp)
    · rw [hprev2, hnil, List.nil_append]
      exact hpw2
  next hnonempty =>
    obtain ⟨hsub1, new1, hprev1, hout1, hpw1⟩ :=
      scanHits_sound req.baseOrigin req.url (listHits (env.listPage req.url).routeData) [] s.seenJobs
    rw [List.nil_append] at hprev1
    refine ⟨hsub1, ?_, ?_⟩
    · intro p hp
      rw [hprev1] at hp
      exact hout1 p hp
    · rw [hprev1]
      exact hpw1


/-! ## Claim C3 — preservation by the DETAIL handler -/

theorem addRequest_snd (s : CrawlState) (r : Request) :
    (addRequest s r).2 = s.queuedKeys.contains r.uniqueKey := by
  rw [addRequest]
  split
  next h => rw [h]
  next h =>
    have hfalse : s.queuedKeys.contains r.uniqueKey = false := by
      rcases hb : s.queuedKeys.contains r.uniqueKey with _ | _
      · rfl
      · exact absurd hb h
    rw [hfalse]

theorem addRequest_of_present (s : CrawlState) (r : Request)
    (h : s.queuedKeys.contains r.uniqueKey = true) : (addRequest s r).1 = s := by
  rw [addRequest, if_pos h]

theorem sanStep_rawStr_str (w : String) (v : JsVal)
    (h : sanStep SanKind.rawStr (some (JsVal.str w)) = some v) : v = JsVal.str w := by
  rw [show sanStep SanKind.rawStr (some (JsVal.str w))
      = if w = "" then none else some (JsVal.str w) from rfl] at h
  by_cases he : w = ""
  · rw [if_pos he] at h
    exact absurd h (by simp)
  · rw [if_neg he] at h
    exact (Option.some.inj h).symm

/-- The sanitized `job_url` can only be the raw record url. -/
theorem sanitizedRecord_url_eq (r : RecordObj) (w u : String)
    (hraw : getField r "job_url" = some (JsVal.str w))
    (h : getField (sanitizeForDataset r) "job_url" = some (JsVal.str u)) : u = w := by
  rw [sanitizeForDataset_field _ "job_url" SanKind.rawStr (by decide), hraw] at h
  exact JsVal.str.inj (sanStep_rawStr_str w _ h).symm |>.symm

theorem pushedCount_pos_of_mem {s : CrawlState} {rec : RecordObj} {u : String}
    (hmem : rec ∈ s.pushed) (hurl : getField rec "job_url" = some (JsVal.str u)) :
    1 ≤ pushedCount s u := by
  rw [pushedCount]
  exact List.countP_pos.mpr ⟨rec, hmem, by simp [hurl]⟩

theorem liveCount_pos_of_mem {s : CrawlState} {req : Request}
    (hmem : req ∈ s.queue) (hlab : req.label = ReqLabel.detail) :
    1 ≤ liveCount s req.url := by
  rw [liveCount]
  exact List.countP_pos.mpr ⟨req, hmem, by simp [hlab]⟩

theorem counts_push (m : CrawlState) (rec : RecordObj) (pd : List String) (u : String) :
    pushedCount { m with pushed := m.pushed ++ [rec], saved := m.saved + 1, pendingDetail := pd } u
      = pushedCount m u + (if getField rec "job_url" = some (JsVal.str u) then 1 else 0)
    ∧ liveCount { m with pushed := m.pushed ++ [rec], saved := m.saved + 1, pendingDetail := pd } u
      = liveCount m u := by
  constructor
  · show (m.pushed ++ [rec]).countP _ = _
    rw [List.countP_append]
    by_cases hc : getField rec "job_url" = some (JsVal.str u) <;> simp [hc] <;> rfl
  · rfl

theorem detailDecisionM_retry (cfg : Config) (saved : Nat) (req : Request)
    (page : DetailPageData) (now : String) (r : Request)
    (h : detailDecisionM cfg saved req page now = .ok (.retry r)) :
    r.url = req.url ∧ r.label = req.label := by
  rw [detailDecisionM] at h
  (repeat' split at h) <;>
    first
      | (injection h with h1
         injection h1 with h2
         subst h2
         exact ⟨rfl, rfl⟩)
      | simp at h

/-- Adding a detail request for a URL with no pushed record and no live
request, guarded by the key set, preserves the invariant. -/
theorem dedupInv_addDetailReq (cfg : Config) (m : CrawlState) (r : Request)
    (hflag : cfg.collectDetails = true) (inv : DedupInv cfg m)
    (hlab : r.label = ReqLabel.detail)
    (hseen : seenAny m.seenJobs (JsVal.str r.url) = true)
    (hp0 : pushedCount m r.url = 0) (hl0 : liveCount m r.url = 0)
    (hkey : m.queuedKeys.contains r.url = true ∨ r.uniqueKey = r.url) :
    DedupInv cfg (addRequest m r).1 := by
  rw [addRequest]
  split
  · exact inv
  · have hlive : ∀ u, liveCount { m with queue := m.queue ++ [r], queuedKeys := r.uniqueKey :: m.queuedKeys } u = liveCount m u + (if r.url = u then 1 else 0) := by
      intro u
      show (m.queue ++ [r]).countP (fun q => decide (q.label = ReqLabel.detail ∧ q.url = u))
        = m.queue.countP (fun q => decide (q.label = ReqLabel.detail ∧ q.url = u))
          + (if r.url = u then 1 else 0)
      rw [List.countP_append]
      have hone : List.countP (fun q => decide (q.label = ReqLabel.detail ∧ q.url = u)) [r]
          = if r.url = u then 1 else 0 := by
        by_cases hc : r.url = u <;> simp [hc, hlab]
      rw [hone]
    have hpush : ∀ u, pushedCount { m with queue := m.queue ++ [r], queuedKeys := r.uniqueKey :: m.queuedKeys } u = pushedCount m u := fun _ => rfl
    constructor
    · exact inv.pushedUrls
    · exact inv.pushedSeen
    · intro r2 hr2 hl2
      rcases List.mem_append.mp hr2 with h2 | h2
      · exact inv.queueSeen r2 h2 hl2
      · obtain rfl := List.mem_singleton.mp h2
        exact hseen
    · intro hf u
      rw [hpush, hlive]
      by_cases hu : r.url = u
      · subst hu
        rw [if_pos rfl, hp0, hl0]
      · rw [if_neg hu]
        have := inv.capOne hf u
        omega
    · intro hf u h1
      rw [hpush, hlive] at h1
      show (r.uniqueKey :: m.queuedKeys).contains u = true
      rw [List.contains_cons]
      by_cases hu : r.url = u
      · subst hu
        rcases hkey with hk | hk
        · rw [hk]
          simp
        · rw [hk]
          simp
      · rw [if_neg hu] at h1
        rw [inv.keyGuard hf u (by omega)]
        simp
    · intro hf
      rw [hflag] at hf
      exact Bool.noConfusion hf
    · exact inv.acceptedIds
    · exact inv.acceptedSeen

/-- One DETAIL handler invocation preserves the invariant, given the
dequeued request is accounted for. -/
theorem dedupInv_applyDetail (cfg : Config) (env : Env) (req : Request) (m : CrawlState)
    (hflag : cfg.collectDetails = true) (inv : DedupInv cfg m)
    (hreqlab : req.label = ReqLabel.detail)
    (hseen : seenAny m.seenJobs (JsVal.str req.url) = true)
    (hp0 : pushedCount m req.url = 0) (hl0 : liveCount m req.url = 0)
    (hkey : m.queuedKeys.contains req.url = true) :
    DedupInv cfg (applyDetail cfg env req m) := by
  rw [applyDetail]
  split
  · exact dedupInv_congr cfg m _ rfl rfl rfl rfl rfl inv
  case _ r heq =>
    obtain ⟨hrurl, hrlab⟩ := detailDecisionM_retry _ _ _ _ _ _ heq
    apply dedupInv_addDetailReq cfg _ r hflag
    · exact dedupInv_congr cfg m _ rfl rfl rfl rfl rfl inv
    · rw [hrlab, hreqlab]
    · rw [hrurl]
      exact hseen
    · rw [hrurl]
      exact hp0
    · rw [hrurl]
      exact hl0
    · left
      rw [hrurl]
      exact hkey
  · exact dedupInv_congr cfg m _ rfl rfl rfl rfl rfl inv
  case _ rec heq =>
    obtain ⟨hlt, sal, hrec⟩ := detailDecisionM_persist _ _ _ _ _ _ heq
    have hrecurl : ∀ u, getField rec "job_url" = some (JsVal.str u) → u = req.url := by
      intro u hu
      rw [hrec] at hu
      refine sanitizedRecord_url_eq _ req.url u ?_ hu
      rfl
    constructor
    · rw [List.pairwise_append]
      refine ⟨inv.pushedUrls, by simp, ?_⟩
      intro r1 h1 r2 h2
      obtain rfl := List.mem_singleton.mp h2
      intro u hu1 hu2
      have hueq := hrecurl u hu2
      subst hueq
      have := pushedCount_pos_of_mem h1 hu1
      omega
    · intro rec2 hmem u hu
      rcases List.mem_append.mp hmem with h2 | h2
      · exact inv.pushedSeen rec2 h2 u hu
      · obtain rfl := List.mem_singleton.mp h2
        have := hrecurl u hu
        subst this
        exact hseen
    · exact inv.queueSeen
    · intro hf u
      rw [(counts_push m rec (removeStr m.pendingDetail req.url) u).1,
        (counts_push m rec (removeStr m.pendingDetail req.url) u).2]
      by_cases hu : u = req.url
      · subst hu
        rw [hp0, hl0]
        have hb : (if getField rec "job_url" = some (JsVal.str req.url) then 1 else 0) ≤ 1 := by
          split <;> omega
        omega
      · rw [if_neg (fun hcon => hu (hrecurl u hcon))]
        have := inv.capOne hf u
        omega
    · intro hf u h1
      rw [(counts_push m rec (removeStr m.pendingDetail req.url) u).1,
        (counts_push m rec (removeStr m.pendingDetail req.url) u).2] at h1
      show m.queuedKeys.contains u = true
      by_cases hu : u = req.url
      · subst hu
        exact hkey
      · rw [if_neg (fun hcon => hu (hrecurl u hcon))] at h1
        exact inv.keyGuard hf u (by omega)
    · intro hf
      rw [hflag] at hf
      exact Bool.noConfusion hf
    · exact inv.acceptedIds
    · exact inv.acceptedSeen
  · exact dedupInv_congr cfg m _ rfl rfl rfl rfl rfl inv


/-! ## Claim C3 — preservation by the LIST handler -/

theorem addRequest_seenJobs (s : CrawlState) (r : Request) :
    (addRequest s r).1.seenJobs = s.seenJobs := by
  rw [addRequest]
  split <;> rfl

theorem dispatchStep_seenJobs (m : CrawlState) (p : Preview) :
    (dispatchStep m p).seenJobs = m.seenJobs := by
  rw [dispatchStep]
  split
  · show (addRequest { m with pendingDetail := p.jobUrl :: m.pendingDetail }
      (dispatchRequest p)).1.seenJobs = m.seenJobs
    rw [addRequest_seenJobs]
  · show (addRequest { m with pendingDetail := p.jobUrl :: m.pendingDetail }
      (dispatchRequest p)).1.seenJobs = m.seenJobs
    rw [addRequest_seenJobs]

theorem dedupInv_dispatchStep (cfg : Config) (m : CrawlState) (p : Preview)
    (hflag : cfg.collectDetails = true) (inv : DedupInv cfg m)
    (hseen : seenAny m.seenJobs (JsVal.str p.jobUrl) = true) :
    DedupInv cfg (dispatchStep m p) := by
  rw [dispatchStep]
  split
  next hpres =>
    have hcont : ({ m with pendingDetail := p.jobUrl :: m.pendingDetail }
        : CrawlState).queuedKeys.contains (dispatchRequest p).uniqueKey = true := by
      rw [← addRequest_snd]
      exact hpres
    have he1 := addRequest_of_present { m with pendingDetail := p.jobUrl :: m.pendingDetail }
      (dispatchRequest p) hcont
    refine dedupInv_congr cfg m _ ?_ ?_ ?_ ?_ ?_ inv
    · show (addRequest { m with pendingDetail := p.jobUrl :: m.pendingDetail }
        (dispatchRequest p)).1.pushed = m.pushed
      rw [he1]
    · show (addRequest { m with pendingDetail := p.jobUrl :: m.pendingDetail }
        (dispatchRequest p)).1.queue = m.queue
      rw [he1]
    · show (addRequest { m with pendingDetail := p.jobUrl :: m.pendingDetail }
        (dispatchRequest p)).1.seenJobs = m.seenJobs
      rw [he1]
    · show (addRequest { m with pendingDetail := p.jobUrl :: m.pendingDetail }
        (dispatchRequest p)).1.accepted = m.accepted
      rw [he1]
    · show (addRequest { m with pendingDetail := p.jobUrl :: m.pendingDetail }
        (dispatchRequest p)).1.queuedKeys = m.queuedKeys
      rw [he1]
  next hnpres =>
    have hcont : m.queuedKeys.contains p.jobUrl = false := by
      rcases hb : m.queuedKeys.contains p.jobUrl with _ | _
      · rfl
      · exact absurd (by rw [addRequest_snd]; exact hb) hnpres
    have hzero : pushedCount m p.jobUrl + liveCount m p.jobUrl = 0 := by
      rcases hn : pushedCount m p.jobUrl + liveCount m p.jobUrl with _ | k
      · rfl
      · have hg := inv.keyGuard hflag p.jobUrl (by omega)
        rw [hg] at hcont
        exact Bool.noConfusion hcont
    apply dedupInv_addDetailReq cfg _ (dispatchRequest p) hflag
    · exact dedupInv_congr cfg m _ rfl rfl rfl rfl rfl inv
    · rfl
    · exact hseen
    · show pushedCount m p.jobUrl = 0
      omega
    · show liveCount m p.jobUrl = 0
      omega
    · right
      rfl

theorem dedupInv_dispatch (cfg : Config) (reqUrl : String) (hflag : cfg.collectDetails = true) :
    ∀ (l : List Preview) (m : CrawlState), DedupInv cfg m →
      (∀ p ∈ l, seenAny m.seenJobs (JsVal.str p.jobUrl) = true) →
      DedupInv cfg (dispatchDetails cfg reqUrl m l) := by
  intro l
  induction l with
  | nil => intro m inv _; exact inv
  | cons p rest ih =>
      intro m inv hseen
      rw [dispatchDetails]
      split
      · exact inv
      · split
        · exact ih m inv (fun q hq => hseen q (List.mem_cons_of_mem p hq))
        · refine ih (dispatchStep m p)
            (dedupInv_dispatchStep cfg m p hflag inv (hseen p (List.mem_cons_self p rest))) ?_
          intro q hq
          rw [dispatchStep_seenJobs]
          exact hseen q (List.mem_cons_of_mem p hq)

theorem listRecord_url (now : String) (p : Preview) (u : String)
    (h : getField (sanitizeForDataset (listRecord now p)) "job_url" = some (JsVal.str u)) :
    u = p.jobUrl := by
  refine sanitizedRecord_url_eq _ p.jobUrl u ?_ h
  rfl

theorem dedupInv_persistPhase (cfg : Config) (env : Env) (reqUrl : String)
    (previews : List Preview) (m : CrawlState) (inv : DedupInv cfg m)
    (hsee : ∀ p ∈ previews, seenAny m.seenJobs (JsVal.str p.jobUrl) = true)
    (hfresh : ∀ p ∈ previews, ∀ rec ∈ m.pushed, ∀ u,
      getField rec "job_url" = some (JsVal.str u) → u ≠ p.jobUrl)
    (hppw : List.Pairwise (fun p q => p.jobUrl ≠ q.jobUrl) previews) :
    DedupInv cfg (persistPhase cfg env reqUrl previews m) := by
  rw [persistPhase]
  split
  next hcd1 =>
    have hcd : cfg.collectDetails = false := by
      rcases hb : cfg.collectDetails with _ | _
      · rfl
      · rw [hb] at hcd1
        exact Bool.noConfusion hcd1
    split
    next hsv =>
      constructor
      · rw [List.pairwise_append]
        refine ⟨inv.pushedUrls, ?_, ?_⟩
        · have hsubpw : List.Pairwise (fun p q => p.jobUrl ≠ q.jobUrl)
              (previews.take (cfg.resultsWanted - m.saved)) :=
            hppw.sublist (List.take_sublist _ _)
          refine List.Pairwise.map _ ?_ hsubpw
          intro p q hpq u hu1 hu2
          exact hpq ((listRecord_url env.now p u hu1).symm.trans (listRecord_url env.now q u hu2))
        · intro r1 h1 r2 h2
          obtain ⟨q, hq, rfl⟩ := List.mem_map.mp h2
          intro u hu1 hu2
          exact absurd (listRecord_url env.now q u hu2)
            (hfresh q ((List.take_sublist _ _).subset hq) r1 h1 u hu1)
      · intro rec hmem u hu
        rcases List.mem_append.mp hmem with h2 | h2
        · exact inv.pushedSeen rec h2 u hu
        · obtain ⟨q, hq, rfl⟩ := List.mem_map.mp h2
          rw [listRecord_url env.now q u hu]
          exact hsee q ((List.take_sublist _ _).subset hq)
      · exact inv.queueSeen
      · intro hf
        rw [hf] at hcd
        exact Bool.noConfusion hcd
      · intro hf
        rw [hf] at hcd
        exact Bool.noConfusion hcd
      · intro hf u
        exact inv.listNoLive hf u
      · exact inv.acceptedIds
      · exact inv.acceptedSeen
    next hsv => exact inv
  next hcd1 =>
    have hcd : cfg.collectDetails = true := by
      rcases hb : cfg.collectDetails with _ | _
      · exact absurd (by rw [hb]; rfl) hcd1
      · rfl
    exact dedupInv_dispatch cfg reqUrl hcd previews m inv hsee

theorem nextListRequest_label (cfg : Config) (req : Request) (s : CrawlState)
    (routeData : JsVal) (hits : List JsVal) (r : Request)
    (h : nextListRequest cfg req s routeData hits = some r) : r.label = ReqLabel.list := by
  rw [nextListRequest] at h
  by_cases h1 : cfg.resultsWanted ≤ s.saved ∨ cfg.maxPages ≤ req.pageNo
  · rw [if_pos h1] at h
    exact absurd h (by simp)
  rw [if_neg h1] at h
  by_cases h2 : cfg.maxPages < req.pageNo + 1 ∨ totalPagesOf routeData hits < req.pageNo + 1
  · rw [if_pos h2] at h
    exact absurd h (by simp)
  rw [if_neg h2] at h
  by_cases h3 : s.seenPages.contains (nextListUrl cfg req) = true
  · rw [if_pos h3] at h
    exact absurd h (by simp)
  rw [if_neg h3] at h
  obtain rfl := Option.some.inj h
  rfl

theorem dedupInv_addListReq (cfg : Config) (m : CrawlState) (r : Request)
    (hlab : r.label = ReqLabel.list) (inv : DedupInv cfg m) :
    DedupInv cfg (addRequest m r).1 := by
  rw [addRequest]
  split
  · exact inv
  · have hlive : ∀ u, liveCount { m with queue := m.queue ++ [r], queuedKeys := r.uniqueKey :: m.queuedKeys } u = liveCount m u := by
      intro u
      show (m.queue ++ [r]).countP (fun q => decide (q.label = ReqLabel.detail ∧ q.url = u))
        = m.queue.countP (fun q => decide (q.label = ReqLabel.detail ∧ q.url = u))
      rw [List.countP_append]
      have hone : List.countP (fun q => decide (q.label = ReqLabel.detail ∧ q.url = u)) [r]
          = 0 := by
        simp [hlab]
      rw [hone, Nat.add_zero]
    constructor
    · exact inv.pushedUrls
    · exact inv.pushedSeen
    · intro r2 hr2 hl2
      rcases List.mem_append.mp hr2 with h2 | h2
      · exact inv.queueSeen r2 h2 hl2
      · obtain rfl := List.mem_singleton.mp h2
        rw [hlab] at hl2
        exact ReqLabel.noConfusion hl2
    · intro hf u
      rw [hlive]
      exact inv.capOne hf u
    · intro hf u h1
      rw [hlive] at h1
      show (r.uniqueKey :: m.queuedKeys).contains u = true
      rw [List.contains_cons, inv.keyGuard hf u h1]
      simp
    · intro hf u
      rw [hlive]
      exact inv.listNoLive hf u
    · exact inv.acceptedIds
    · exact inv.acceptedSeen

theorem dedupInv_nextPagePhase (cfg : Config) (req : Request) (routeData : JsVal)
    (hits : List JsVal) (m : CrawlState) (inv : DedupInv cfg m) :
    DedupInv cfg (nextPagePhase cfg req routeData hits m) := by
  rw [nextPagePhase]
  split
  · exact inv
  next nreq hnreq =>
    apply dedupInv_addListReq cfg _ nreq (nextListRequest_label _ _ _ _ _ _ hnreq)
    exact dedupInv_congr cfg m _ rfl rfl rfl rfl rfl inv

theorem dedupInv_handleList (cfg : Config) (env : Env) (req : Request) (m : CrawlState)
    (hd : cfg.dedupe = true) (inv : DedupInv cfg m) :
    DedupInv cfg (handleList cfg env req m) := by
  obtain ⟨hsub, hout, hpw⟩ := scannedPreviews_sound cfg env req m hd
  rw [handleList]
  apply dedupInv_nextPagePhase
  apply dedupInv_persistPhase
  · constructor
    · exact inv.pushedUrls
    · intro rec hr u hu
      exact hsub _ (inv.pushedSeen rec hr u hu)
    · intro r2 hr2 hl2
      exact hsub _ (inv.queueSeen r2 hr2 hl2)
    · intro hf u
      exact inv.capOne hf u
    · intro hf u h1
      exact inv.keyGuard hf u h1
    · intro hf u
      exact inv.listNoLive hf u
    · show List.Pairwise IdDistinct (m.accepted ++ (scannedPreviews cfg env req m).1)
      rw [List.pairwise_append]
      refine ⟨inv.acceptedIds, List.Pairwise.imp (fun h => h.1) hpw, ?_⟩
      intro p0 h0 p h1 htr0
      rcases he : jsEqb p0.jobId p.jobId with _ | _
      · rfl
      · have heq := jsEqb_eq he
        have hrefl : jsEqb p0.jobId p0.jobId = true := by
          rw [← heq] at he
          exact he
        have hseen0 := inv.acceptedSeen p0 h0 hrefl htr0
        obtain ⟨_, hb, _, _⟩ := hout p h1
        have htrp : jsTruthy p.jobId = true := by
          rw [← heq]
          exact htr0
        have hcontra := hb htrp
        rw [← heq, hseen0] at hcontra
        exact Bool.noConfusion hcontra
    · intro p hp2 hrefl htr
      rcases List.mem_append.mp hp2 with h2 | h2
      · exact hsub _ (inv.acceptedSeen p h2 hrefl htr)
      · obtain ⟨_, _, _, hd4⟩ := hout p h2
        exact hd4 hrefl htr
  · intro p hp
    exact (hout p hp).2.2.1
  · intro p hp rec hrec u hu hcon
    have h1 := inv.pushedSeen rec hrec u hu
    obtain ⟨ha, _, _, _⟩ := hout p hp
    rw [hcon, ha] at h1
    exact Bool.noConfusion h1
  · exact List.Pairwise.imp (fun h => h.2) hpw


/-! ## Claim C3 — the dedup invariants -/

theorem dedupInv_stepRel (cfg : Config) (env : Env) (s t : CrawlState)
    (hd : cfg.dedupe = true) (hst : StepRel cfg env s t) (inv : DedupInv cfg s) :
    DedupInv cfg t := by
  obtain ⟨pre, req, post, hq, rfl⟩ := hst
  have invm := dedupInv_dequeue cfg s pre post req hq inv
  rcases hlab : req.label with _ | _
  · rw [stepReq, hlab]
    exact dedupInv_handleList cfg env req _ hd invm
  · have hmem : req ∈ s.queue := by
      rw [hq]
      exact List.mem_append.mpr (Or.inr (List.mem_cons_self req post))
    have hlive1 : 1 ≤ liveCount s req.url := liveCount_pos_of_mem hmem hlab
    have hseen : seenAny s.seenJobs (JsVal.str req.url) = true := inv.queueSeen req hmem hlab
    have hsplit := liveCount_split s pre post req hq req.url
    have hitepos : (if req.label = ReqLabel.detail ∧ req.url = req.url then 1 else 0) = 1 := by
      rw [if_pos ⟨hlab, rfl⟩]
    rw [hitepos] at hsplit
    rcases hcd : cfg.collectDetails with _ | _
    · have h0 := inv.listNoLive hcd req.url
      omega
    · have hcap := inv.capOne hcd req.url
      have hkey := inv.keyGuard hcd req.url (by omega)
      have hl0 : liveCount { s with queue := pre ++ post } req.url = 0 := by omega
      have hp0 : pushedCount { s with queue := pre ++ post } req.url = 0 := by
        rw [pushedCount_set_queue]
        omega
      rw [stepReq, hlab]
      exact dedupInv_applyDetail cfg env req _ hcd invm hlab hseen hp0 hl0 hkey

/-- C3: with `dedupe` on, in every reachable state the persisted records
carry pairwise distinct `job_url` values, and no two accepted previews share
a truthy job id — the seen-keys set is checked before a preview is accepted
and updated when it is, and detail requests are deduplicated per URL by the
request-queue key set. -/
theorem C3_dedup (cfg : Config) (env : Env) (urls : List String) (t : CrawlState)
    (hd : cfg.dedupe = true)
    (hr : ReachableFrom cfg env (initState cfg urls) t) :
    List.Pairwise UrlDistinct t.pushed ∧ List.Pairwise IdDistinct t.accepted := by
  have inv : DedupInv cfg t := by
    induction hr with
    | refl => exact dedupInv_init cfg urls
    | step hreach hstep ih => exact dedupInv_stepRel cfg env _ _ hd hstep ih
  exact ⟨inv.pushedUrls, inv.acceptedIds⟩

/-- Witness: after the first handled listing page of the detail-mode
scenario (five accepted previews, five dispatched detail requests), both
dedup invariants hold. -/
theorem C3_dedup_witness :
    List.Pairwise UrlDistinct (fifoReach1 exCfgDetail exEnv exPage1).pushed ∧
    List.Pairwise IdDistinct (fifoReach1 exCfgDetail exEnv exPage1).accepted :=
  C3_dedup exCfgDetail exEnv [exPage1] (fifoReach1 exCfgDetail exEnv exPage1) rfl
    (fifoReach1_reachable exCfgDetail exEnv exPage1)

end Randstad
